import Mathlib

/-!
Verification of the Quoridor board engine (`Quoridor.py`).

The Python `Board` owns a 9 x 9 grid of `Tile` objects.  Each `Tile` holds
four optional references to its neighbouring tiles (`_north`, `_south`,
`_east`, `_west`; `None` encodes a fence or the board edge), an occupancy
marker `_has_pawn` (an int: 0 none, 1 player 1, 2 player 2; `set_has_pawn`
stores whatever integer it is given) and its own `_board_coord` `(col, row)`.

In this shallow embedding a tile reference is represented by the grid slot
(column, row) of the referenced tile — in every state produced by the Python
constructor and by `Board`'s operations, each link either is `None` or points
to a tile that lives in the grid, so a reference is identified with the slot
it occupies.  The grid itself is a total function from slots to tiles.
Following a link (attribute access on a referenced object) is total; only the
four places where Python *indexes* `self._board[y][x]` are modelled through
`tileRef`, which returns `none` when the index pair is outside [0,8] x [0,8]
(Python would raise an `IndexError`, or silently wrap a negative index).
Operations therefore return `Option` results: a `none` result models a raised
exception; `some` carries the Python return value paired with the (possibly
updated) board, since the Python methods mutate the board in place.
-/

/-- A slot of the 9 x 9 grid: (column index, row index). -/
abbrev Slot : Type := Fin 9 × Fin 9

/-- Grid slot one row up (north) of `q`, if any. -/
def upOf (q : Slot) : Option Slot :=
  if h : q.2.val = 0 then none
  else some (q.1, ⟨q.2.val - 1, by omega⟩)

/-- Grid slot one row down (south) of `q`, if any. -/
def downOf (q : Slot) : Option Slot :=
  if h : q.2.val = 8 then none
  else some (q.1, ⟨q.2.val + 1, by have h9 := q.2.isLt; omega⟩)

/-- Grid slot one column left (west) of `q`, if any. -/
def leftOf (q : Slot) : Option Slot :=
  if h : q.1.val = 0 then none
  else some (⟨q.1.val - 1, by omega⟩, q.2)

/-- Grid slot one column right (east) of `q`, if any. -/
def rightOf (q : Slot) : Option Slot :=
  if h : q.1.val = 8 then none
  else some (⟨q.1.val + 1, by have h9 := q.1.isLt; omega⟩, q.2)

/-- Embeds the Python `Tile` class: four optional neighbour links (a link is
the slot of the tile the reference points to), the pawn marker and the
stored board coordinate `(col, row)`. -/
structure Tile where
  north : Option Slot
  south : Option Slot
  east : Option Slot
  west : Option Slot
  has_pawn : Int
  board_coord : Nat × Nat
deriving DecidableEq

/-- Embeds `Tile.get_direction(movement)`: dispatch on the sign of the x
component first, then the y component; `(0, 0)` falls through to `None`. -/
def Tile.get_direction (t : Tile) (movement : Int × Int) : Option Slot :=
  if movement.1 < 0 then t.west
  else if movement.1 > 0 then t.east
  else if movement.2 < 0 then t.north
  else if movement.2 > 0 then t.south
  else none

/-- Embeds `Tile.close_direction(direction)`: sets the named link to `None`. -/
def Tile.close_direction (t : Tile) (direction : String) : Tile :=
  if direction = "north" then { t with north := none }
  else if direction = "south" then { t with south := none }
  else if direction = "west" then { t with west := none }
  else if direction = "east" then { t with east := none }
  else t

/-- Embeds `Tile.open_direction(direction, tile)`: sets the named link to
point at the given tile (identified by its slot). -/
def Tile.open_direction (t : Tile) (direction : String) (q : Slot) : Tile :=
  if direction = "north" then { t with north := some q }
  else if direction = "south" then { t with south := some q }
  else if direction = "west" then { t with west := some q }
  else if direction = "east" then { t with east := some q }
  else t

/-- The value set returned by `Board.place_fence`: Python returns `True`,
`False` or the string `"breaks the fair play rule"`. -/
inductive FenceResult where
  | placed
  | rejected
  | breaksFairPlay
deriving DecidableEq

/-- Embeds the Python `Board`: the grid of tiles indexed by slot, and the two
stored player coordinates (Python keeps the raw int tuples it was given). -/
structure Board where
  grid : Slot → Tile
  player_1 : Int × Int
  player_2 : Int × Int

/-- The in-bounds test `0 <= x <= 8 and 0 <= y <= 8` used by the Python
code before indexing the grid. -/
def inB (p : Int × Int) : Prop :=
  0 ≤ p.1 ∧ p.1 ≤ 8 ∧ 0 ≤ p.2 ∧ p.2 ≤ 8

instance (p : Int × Int) : Decidable (inB p) := by unfold inB; infer_instance

/-- The grid slot denoted by an in-bounds coordinate pair. -/
def mkSlot (p : Int × Int) (h : inB p) : Slot :=
  (⟨p.1.toNat, by unfold inB at h; omega⟩, ⟨p.2.toNat, by unfold inB at h; omega⟩)

/-- The slot denoted by a coordinate pair, or `none` if it is out of range. -/
def slotOf (p : Int × Int) : Option Slot :=
  if h : inB p then some (mkSlot p h) else none

/-- Models indexing `self._board[p.2][p.1]`: `none` stands for the indexing
going outside the grid (Python raises, or wraps a negative index). -/
def Board.tileRef (b : Board) (p : Int × Int) : Option Tile :=
  (slotOf p).map b.grid

/-- Replaces the tile in slot `q` by `f` of the old tile (in Python the
mutation happens in place through the object reference). -/
def Board.updateSlot (b : Board) (q : Slot) (f : Tile → Tile) : Board :=
  { b with grid := fun q2 => if q2 = q then f (b.grid q2) else b.grid q2 }

/-- Updates the tile denoted by an in-bounds coordinate pair; out-of-range
pairs leave the board unchanged (the operations only use this after the
corresponding `tileRef` succeeded). -/
def Board.updateRef (b : Board) (p : Int × Int) (f : Tile → Tile) : Board :=
  match slotOf p with
  | some q => b.updateSlot q f
  | none => b

/-- Embeds `Tile.get_valid_directions()` (listing the linked tiles in the
order north, south, east, west), resolving each link to its tile. -/
def Board.get_valid_directions (b : Board) (t : Tile) : List Tile :=
  ([t.north, t.south, t.east, t.west].filterMap id).map b.grid

/-- Embeds `Board._can_jump_pawn(current_tile, row_dir, col_dir)`. -/
def Board.can_jump_pawn (b : Board) (current_tile : Tile) (row_dir col_dir : Int) : Bool :=
  if (row_dir.natAbs = 2 ∨ col_dir.natAbs = 2) ∧ (row_dir.natAbs = 0 ∨ col_dir.natAbs = 0) then
    match current_tile.get_direction (col_dir, row_dir) with
    | some nq =>
      if (b.grid nq).has_pawn ≠ 0 then ((b.grid nq).get_direction (col_dir, row_dir)).isSome
      else false
    | none => false
  else false

/-- The `elif change_row ...` arm of `Board._can_move_diagonally`, reached
when the column arm's guard (`change_col` exists and holds a pawn) fails. -/
def Board.diag_row_branch (b : Board) (change_row : Option Slot) (row_dir col_dir : Int) : Bool :=
  match change_row with
  | some rq =>
    if (b.grid rq).has_pawn ≠ 0 then
      decide ((b.grid rq).get_direction (0, row_dir) = none) &&
        ((b.grid rq).get_direction (col_dir, 0)).isSome
    else false
  | none => false

/-- Embeds `Board._can_move_diagonally(current_tile, row_dir, col_dir)`. -/
def Board.can_move_diagonally (b : Board) (current_tile : Tile) (row_dir col_dir : Int) : Bool :=
  if row_dir.natAbs = 1 ∧ col_dir.natAbs = 1 then
    match current_tile.get_direction (col_dir, 0) with
    | some cq =>
      if (b.grid cq).has_pawn ≠ 0 then
        decide ((b.grid cq).get_direction (col_dir, 0) = none) &&
          ((b.grid cq).get_direction (0, row_dir)).isSome
      else b.diag_row_branch (current_tile.get_direction (0, row_dir)) row_dir col_dir
    | none => b.diag_row_branch (current_tile.get_direction (0, row_dir)) row_dir col_dir
  else false

/-- Embeds `Board._can_move_regularly(current_tile, row_dir, col_dir)`. -/
def Board.can_move_regularly (_b : Board) (current_tile : Tile) (row_dir col_dir : Int) : Bool :=
  if (row_dir.natAbs = 1 ∨ col_dir.natAbs = 1) ∧ (row_dir.natAbs = 0 ∨ col_dir.natAbs = 0) then
    (current_tile.get_direction (col_dir, row_dir)).isSome
  else false

/-- Embeds `Board.move_pawn(player, new_pos)`.  The returned pair carries the
Python boolean result and the board after the call. -/
def Board.move_pawn (b : Board) (player : Int) (new_pos : Int × Int) : Option (Bool × Board) :=
  if ¬ inB new_pos then some (false, b)
  else
    (b.tileRef new_pos).bind (fun new_tile =>
      if new_tile.has_pawn ≠ 0 then some (false, b)
      else
        let current_pos := if player = 1 then b.player_1 else b.player_2
        (b.tileRef current_pos).bind (fun current_tile =>
          let row_dir := new_pos.2 - current_pos.2
          let col_dir := new_pos.1 - current_pos.1
          let moving_regularly := b.can_move_regularly current_tile row_dir col_dir
          let jumping_pawn := b.can_jump_pawn current_tile row_dir col_dir
          let moving_diagonally := b.can_move_diagonally current_tile row_dir col_dir
          if moving_regularly || jumping_pawn || moving_diagonally then
            let b1 := b.updateRef current_pos (fun t => { t with has_pawn := 0 })
            let b2 := b1.updateRef new_pos (fun t => { t with has_pawn := player })
            if player = 1 then some (true, { b2 with player_1 := new_pos })
            else some (true, { b2 with player_2 := new_pos })
          else some (false, b)))

/-- The body of the `for new_path in new_paths` loop inside
`Board._fair_play`: appends to the queue, and records in `paths_taken`, every
expanded tile not already recorded. -/
def bfsPush : List Tile → List Tile → List Tile → List Tile × List Tile
  | [], paths, paths_taken => (paths, paths_taken)
  | n :: ns, paths, paths_taken =>
    if n ∈ paths_taken then bfsPush ns paths paths_taken
    else bfsPush ns (paths ++ [n]) (paths_taken ++ [n])

/-- The `while len(paths) > 0` loop of `Board._fair_play`, with an explicit
fuel parameter.  The loop adds each tile to the queue at most once, so the
queue handles at most 81 + 4 tiles and 100 units of fuel are never exhausted
(proved below); running out of fuel returns `false`. -/
def Board.bfsLoop (b : Board) (destination : Nat) : Nat → List Tile → List Tile → Bool
  | 0, _, _ => false
  | _ + 1, [], _ => false
  | fuel + 1, t :: rest, paths_taken =>
    if t.board_coord.2 = destination then true
    else
      let pushed := bfsPush (b.get_valid_directions t) rest paths_taken
      b.bfsLoop destination fuel pushed.1 pushed.2

/-- Embeds `Board._fair_play(player)`.  Note the Python seed set
`paths_taken = {position}` holds the raw coordinate *tuple*, which never
compares equal to any `Tile` object, so only the tiles subsequently added to
the set matter for membership tests; the seed tuple is therefore dropped and
`paths_taken` starts as the tiles of the initial queue. -/
def Board.fair_play (b : Board) (player : Int) : Option Bool :=
  let destination : Nat := if player = 1 then 8 else 0
  let position := if player = 1 then b.player_1 else b.player_2
  (b.tileRef position).bind (fun tile =>
    let paths := b.get_valid_directions tile
    let paths_taken := (bfsPush paths [] []).2
    some (b.bfsLoop destination 100 paths paths_taken))

/-- Closes the two sides of one link: the `dq` side of slot `q` first, then
the `dbq` side of slot `bq`, in the order of the Python code. -/
def Board.closePair (b : Board) (q bq : Slot) (dq dbq : String) : Board :=
  (b.updateSlot q (fun t => t.close_direction dq)).updateSlot bq (fun t => t.close_direction dbq)

/-- Reopens the two sides of one link (the rollback in
`Board._place_fence_in_direction`): slot `q`'s `dq` link is pointed back at
`bq` and slot `bq`'s `dbq` link back at `q`. -/
def Board.openPair (b : Board) (q bq : Slot) (dq dbq : String) : Board :=
  (b.updateSlot q (fun t => t.open_direction dq bq)).updateSlot bq (fun t => t.open_direction dbq q)

/-- Embeds `not self._fair_play(1) or not self._fair_play(2)` with Python's
short-circuit evaluation: `true` means the tentative fence traps a player. -/
def Board.fair_fail (b : Board) : Option Bool :=
  (b.fair_play 1).bind (fun f1 =>
    if f1 then (b.fair_play 2).bind (fun f2 => some (!f2)) else some true)

/-- Embeds `Board._place_fence_in_direction(direction, tile)`; `q` is the
slot of the `tile` argument.  A direction other than `"v"`/`"h"` falls
through to the final `return True` exactly as in the Python body (the caller
`place_fence` screens directions first). -/
def Board.place_fence_in_direction (b : Board) (direction : String) (q : Slot) :
    Option (FenceResult × Board) :=
  if direction = "v" then
    match (b.grid q).get_direction (-1, 0) with
    | none => some (FenceResult.rejected, b)
    | some bq =>
      let b2 := b.closePair q bq ("west") ("east")
      b2.fair_fail.bind (fun fail =>
        if fail then some (FenceResult.breaksFairPlay, b2.openPair q bq ("west") ("east"))
        else some (FenceResult.placed, b2))
  else if direction = "h" then
    match (b.grid q).get_direction (0, -1) with
    | none => some (FenceResult.rejected, b)
    | some bq =>
      let b2 := b.closePair q bq ("north") ("south")
      b2.fair_fail.bind (fun fail =>
        if fail then some (FenceResult.breaksFairPlay, b2.openPair q bq ("north") ("south"))
        else some (FenceResult.placed, b2))
  else some (FenceResult.placed, b)

/-- Embeds `Board.place_fence(direction, position)`. -/
def Board.place_fence (b : Board) (direction : String) (position : Int × Int) :
    Option (FenceResult × Board) :=
  if ¬ (direction = "v" ∨ direction = "h") then some (FenceResult.rejected, b)
  else if ¬ inB position then some (FenceResult.rejected, b)
  else
    (slotOf position).bind (fun q => b.place_fence_in_direction direction q)

/-- The tile built for slot `q` by `Board.__init__`: all four links open
toward the true grid neighbours (absent at the edges), pawn 1 at (4,0) and
pawn 2 at (4,8), and the slot recorded as the board coordinate. -/
def initTile (q : Slot) : Tile :=
  { north := upOf q
    south := downOf q
    east := rightOf q
    west := leftOf q
    has_pawn := if q.1.val = 4 ∧ q.2.val = 0 then 1 else if q.1.val = 4 ∧ q.2.val = 8 then 2 else 0
    board_coord := (q.1.val, q.2.val) }

/-- The board produced by `Board.__init__`. -/
def initialBoard : Board :=
  { grid := initTile, player_1 := (4, 0), player_2 := (4, 8) }

/-! ## Well-formedness of board states

These predicates capture the invariants the specification's data model
declares for every board state: links are opened and closed in symmetric
pairs and only ever point at the true grid neighbour, player coordinates are
in range, and occupancy markers agree with the stored player coordinates. -/

/-- One direction of the link invariant at slot `q`: the link toward the
grid neighbour `geo` (if any) is either absent on both sides or present on
both sides and pointing at the true neighbour. -/
def pairOK (b : Board) (q : Slot) (link rev : Tile → Option Slot) (geo : Option Slot) : Prop :=
  match geo with
  | none => link (b.grid q) = none
  | some u => (link (b.grid q) = none ∧ rev (b.grid u) = none) ∨
      (link (b.grid q) = some u ∧ rev (b.grid u) = some q)

instance (b : Board) (q : Slot) (link rev : Tile → Option Slot) (geo : Option Slot) :
    Decidable (pairOK b q link rev geo) := by
  cases geo <;> (unfold pairOK; infer_instance)

/-- The link invariant of the data model: in every direction of every slot,
the link and its reciprocal are present or absent together and existing
links point at the true grid neighbour. -/
def LinksWF (b : Board) : Prop :=
  ∀ q : Slot,
    pairOK b q Tile.north Tile.south (upOf q) ∧
    pairOK b q Tile.south Tile.north (downOf q) ∧
    pairOK b q Tile.east Tile.west (rightOf q) ∧
    pairOK b q Tile.west Tile.east (leftOf q)

instance (b : Board) : Decidable (LinksWF b) := by unfold LinksWF; infer_instance

/-- The stored player coordinates are both inside the grid. -/
def storedInB (b : Board) : Prop := inB b.player_1 ∧ inB b.player_2

instance (b : Board) : Decidable (storedInB b) := by unfold storedInB; infer_instance

/-- Slot `q` denotes the coordinate pair `p`. -/
def coordIs (q : Slot) (p : Int × Int) : Prop :=
  (q.1.val : Int) = p.1 ∧ (q.2.val : Int) = p.2

instance (q : Slot) (p : Int × Int) : Decidable (coordIs q p) := by unfold coordIs; infer_instance

/-- The occupancy invariant of the data model: stored coordinates are in
range, every occupancy marker is 0, 1 or 2, and the cells carrying marker 1
resp. 2 are exactly the cells at the stored player coordinates. -/
def PawnsWF (b : Board) : Prop :=
  storedInB b ∧
  ∀ q : Slot,
    ((b.grid q).has_pawn = 0 ∨ (b.grid q).has_pawn = 1 ∨ (b.grid q).has_pawn = 2) ∧
    ((b.grid q).has_pawn = 1 ↔ coordIs q b.player_1) ∧
    ((b.grid q).has_pawn = 2 ↔ coordIs q b.player_2)

instance (b : Board) : Decidable (PawnsWF b) := by unfold PawnsWF; infer_instance

/-- The goal row of a player, as used by `Board._fair_play` and
`Board.player_in_goal`: row 8 for player 1, else row 0. -/
def goalRow (player : Int) : Nat := if player = 1 then 8 else 0

/-- The stored coordinate of a player, as read by `Board.move_pawn` and
`Board._fair_play`: any player other than 1 reads player 2's coordinate. -/
def storedPos (b : Board) (player : Int) : Int × Int :=
  if player = 1 then b.player_1 else b.player_2

/-- One step along an open link: `u` is among the tiles `t` links to. -/
def stepRel (b : Board) (t u : Tile) : Prop := u ∈ b.get_valid_directions t

instance (b : Board) (t u : Tile) : Decidable (stepRel b t u) := by
  unfold stepRel; infer_instance

/-- The player has a route of at least one open link from its current cell
to some cell whose stored row is its goal row. -/
def hasRoute (b : Board) (player : Int) : Prop :=
  ∃ s, b.tileRef (storedPos b player) = some s ∧
    ∃ g, Relation.TransGen (stepRel b) s g ∧ g.board_coord.2 = goalRow player

/-- The route notion in the words of the specification claim ("there exists
a path of open links", including the length-zero path that stays on the
player's own cell): reflexive-transitive closure instead of transitive. -/
def specHasRoute (b : Board) (player : Int) : Prop :=
  ∃ s, b.tileRef (storedPos b player) = some s ∧
    ∃ g, Relation.ReflTransGen (stepRel b) s g ∧ g.board_coord.2 = goalRow player

/-- The tiles stored in the grid, as a finite set of tile values. -/
def boardTiles (b : Board) : Finset Tile := Finset.image b.grid Finset.univ

/-- Number of board tiles not yet recorded in `paths_taken`; together with
the queue length this bounds the remaining iterations of the search loop. -/
def unvisited (b : Board) (taken : List Tile) : Nat :=
  ((boardTiles b).filter (fun t => t ∉ taken)).card

/-- Board states reachable from the freshly constructed board through the
two public mutating operations (whatever their reported outcome). -/
inductive Reachable : Board → Prop where
  | init : Reachable initialBoard
  | move (b : Board) (player : Int) (new_pos : Int × Int) (r : Bool) (b2 : Board) :
      Reachable b → b.move_pawn player new_pos = some (r, b2) → Reachable b2
  | fence (b : Board) (direction : String) (position : Int × Int) (r : FenceResult) (b2 : Board) :
      Reachable b → b.place_fence direction position = some (r, b2) → Reachable b2

/-! ## Basic lemmas about slots, lookups and updates -/

theorem Board.updateSlot_grid (b : Board) (q : Slot) (f : Tile → Tile) (q2 : Slot) :
    (b.updateSlot q f).grid q2 = if q2 = q then f (b.grid q2) else b.grid q2 := rfl

theorem Board.updateSlot_player_1 (b : Board) (q : Slot) (f : Tile → Tile) :
    (b.updateSlot q f).player_1 = b.player_1 := rfl

theorem Board.updateSlot_player_2 (b : Board) (q : Slot) (f : Tile → Tile) :
    (b.updateSlot q f).player_2 = b.player_2 := rfl

theorem slotOf_pos {p : Int × Int} (h : inB p) : slotOf p = some (mkSlot p h) := dif_pos h

theorem slotOf_neg {p : Int × Int} (h : ¬ inB p) : slotOf p = none := dif_neg h

theorem Board.tileRef_pos (b : Board) {p : Int × Int} (h : inB p) :
    b.tileRef p = some (b.grid (mkSlot p h)) := by
  unfold Board.tileRef
  rw [slotOf_pos h, Option.map_some']

theorem Board.tileRef_neg (b : Board) {p : Int × Int} (h : ¬ inB p) :
    b.tileRef p = none := by
  unfold Board.tileRef
  rw [slotOf_neg h, Option.map_none']

theorem Board.tileRef_some_inB (b : Board) {p : Int × Int} {t : Tile}
    (h : b.tileRef p = some t) : inB p := by
  by_contra hn
  rw [b.tileRef_neg hn] at h
  exact Option.noConfusion h

theorem Board.updateRef_pos (b : Board) {p : Int × Int} (h : inB p) (f : Tile → Tile) :
    b.updateRef p f = b.updateSlot (mkSlot p h) f := by
  unfold Board.updateRef
  rw [slotOf_pos h]

theorem coordIs_mkSlot {p : Int × Int} (h : inB p) : coordIs (mkSlot p h) p := by
  unfold inB at h
  unfold coordIs mkSlot
  constructor <;> simp <;> omega

theorem coordIs_eq_mkSlot {q : Slot} {p : Int × Int} (h : inB p) (hc : coordIs q p) :
    q = mkSlot p h := by
  unfold inB at h
  unfold coordIs at hc
  unfold mkSlot
  obtain ⟨a, b⟩ := hc
  ext
  · simp; omega
  · simp; omega

/-! ## Lemmas about the search loop of `_fair_play` -/

theorem bfsPush_nil (paths taken : List Tile) : bfsPush [] paths taken = (paths, taken) := rfl

theorem bfsPush_paths_mono {t : Tile} :
    ∀ (ns paths taken : List Tile), t ∈ paths → t ∈ (bfsPush ns paths taken).1 := by
  intro ns
  induction ns with
  | nil => intro paths taken h; exact h
  | cons n ns ih =>
    intro paths taken h
    simp only [bfsPush]
    by_cases hn : n ∈ taken
    · rw [if_pos hn]; exact ih paths taken h
    · rw [if_neg hn]; exact ih _ _ (List.mem_append_left _ h)

theorem bfsPush_taken_mono {t : Tile} :
    ∀ (ns paths taken : List Tile), t ∈ taken → t ∈ (bfsPush ns paths taken).2 := by
  intro ns
  induction ns with
  | nil => intro paths taken h; exact h
  | cons n ns ih =>
    intro paths taken h
    simp only [bfsPush]
    by_cases hn : n ∈ taken
    · rw [if_pos hn]; exact ih paths taken h
    · rw [if_neg hn]; exact ih _ _ (List.mem_append_left _ h)

theorem bfsPush_taken_of_mem {t : Tile} :
    ∀ (ns paths taken : List Tile), t ∈ ns → t ∈ (bfsPush ns paths taken).2 := by
  intro ns
  induction ns with
  | nil => intro paths taken h; exact absurd h (List.not_mem_nil t)
  | cons n ns ih =>
    intro paths taken h
    rcases List.mem_cons.mp h with rfl | h2
    · simp only [bfsPush]
      by_cases hn : t ∈ taken
      · rw [if_pos hn]; exact bfsPush_taken_mono ns paths taken hn
      · rw [if_neg hn]
        exact bfsPush_taken_mono ns _ _ (List.mem_append_right _ (List.mem_singleton.mpr rfl))
    · simp only [bfsPush]
      by_cases hn : n ∈ taken
      · rw [if_pos hn]; exact ih paths taken h2
      · rw [if_neg hn]; exact ih _ _ h2

theorem bfsPush_paths_sub {t : Tile} :
    ∀ (ns paths taken : List Tile), t ∈ (bfsPush ns paths taken).1 → t ∈ paths ∨ t ∈ ns := by
  intro ns
  induction ns with
  | nil => intro paths taken h; exact Or.inl h
  | cons n ns ih =>
    intro paths taken h
    simp only [bfsPush] at h
    by_cases hn : n ∈ taken
    · rw [if_pos hn] at h
      rcases ih paths taken h with h2 | h2
      · exact Or.inl h2
      · exact Or.inr (List.mem_cons_of_mem _ h2)
    · rw [if_neg hn] at h
      rcases ih _ _ h with h2 | h2
      · rcases List.mem_append.mp h2 with h3 | h3
        · exact Or.inl h3
        · exact Or.inr (List.mem_cons.mpr (Or.inl (List.mem_singleton.mp h3)))
      · exact Or.inr (List.mem_cons_of_mem _ h2)

theorem bfsPush_taken_sub {t : Tile} :
    ∀ (ns paths taken : List Tile), t ∈ (bfsPush ns paths taken).2 → t ∈ taken ∨ t ∈ ns := by
  intro ns
  induction ns with
  | nil => intro paths taken h; exact Or.inl h
  | cons n ns ih =>
    intro paths taken h
    simp only [bfsPush] at h
    by_cases hn : n ∈ taken
    · rw [if_pos hn] at h
      rcases ih paths taken h with h2 | h2
      · exact Or.inl h2
      · exact Or.inr (List.mem_cons_of_mem _ h2)
    · rw [if_neg hn] at h
      rcases ih _ _ h with h2 | h2
      · rcases List.mem_append.mp h2 with h3 | h3
        · exact Or.inl h3
        · exact Or.inr (List.mem_cons.mpr (Or.inl (List.mem_singleton.mp h3)))
      · exact Or.inr (List.mem_cons_of_mem _ h2)

theorem bfsPush_paths_or_taken {t : Tile} :
    ∀ (ns paths taken : List Tile), t ∈ ns → t ∈ (bfsPush ns paths taken).1 ∨ t ∈ taken := by
  intro ns
  induction ns with
  | nil => intro paths taken h; exact absurd h (List.not_mem_nil t)
  | cons n ns ih =>
    intro paths taken h
    rcases List.mem_cons.mp h with rfl | h2
    · simp only [bfsPush]
      by_cases hn : t ∈ taken
      · rw [if_pos hn]; exact Or.inr hn
      · rw [if_neg hn]
        exact Or.inl (bfsPush_paths_mono ns _ _
          (List.mem_append_right _ (List.mem_singleton.mpr rfl)))
    · simp only [bfsPush]
      by_cases hn : n ∈ taken
      · rw [if_pos hn]; exact ih paths taken h2
      · rw [if_neg hn]
        rcases ih _ _ h2 with h3 | h3
        · exact Or.inl h3
        · rcases List.mem_append.mp h3 with h4 | h4
          · exact Or.inr h4
          · exact Or.inl (bfsPush_paths_mono ns _ _
              (List.mem_append_right _ h4))

theorem bfsPush_sub_taken :
    ∀ (ns paths taken : List Tile), (∀ u ∈ paths, u ∈ taken) →
      ∀ u ∈ (bfsPush ns paths taken).1, u ∈ (bfsPush ns paths taken).2 := by
  intro ns
  induction ns with
  | nil => intro paths taken h u hu; exact h u hu
  | cons n ns ih =>
    intro paths taken h u hu
    simp only [bfsPush] at hu ⊢
    by_cases hn : n ∈ taken
    · rw [if_pos hn] at hu ⊢; exact ih paths taken h u hu
    · rw [if_neg hn] at hu ⊢
      refine ih _ _ ?_ u hu
      intro v hv
      rcases List.mem_append.mp hv with h2 | h2
      · exact List.mem_append_left _ (h v h2)
      · exact List.mem_append_right _ h2

theorem succ_mem_boardTiles (b : Board) (t : Tile) :
    ∀ u ∈ b.get_valid_directions t, u ∈ boardTiles b := by
  intro u hu
  unfold Board.get_valid_directions at hu
  rcases List.mem_map.mp hu with ⟨q, _, rfl⟩
  exact Finset.mem_image.mpr ⟨q, Finset.mem_univ q, rfl⟩

theorem unvisited_append (b : Board) (taken : List Tile) (n : Tile)
    (hb : n ∈ boardTiles b) (hn : n ∉ taken) :
    unvisited b (taken ++ [n]) + 1 ≤ unvisited b taken := by
  have hlt : ((boardTiles b).filter (fun t => t ∉ taken ++ [n])).card <
      ((boardTiles b).filter (fun t => t ∉ taken)).card := by
    apply Finset.card_lt_card
    rw [Finset.ssubset_def]
    constructor
    · intro t ht
      rcases Finset.mem_filter.mp ht with ⟨h1, h2⟩
      refine Finset.mem_filter.mpr ⟨h1, ?_⟩
      intro hc
      exact h2 (List.mem_append_left _ hc)
    · intro hc
      have hmem : n ∈ (boardTiles b).filter (fun t => t ∉ taken) :=
        Finset.mem_filter.mpr ⟨hb, hn⟩
      have := hc hmem
      rcases Finset.mem_filter.mp this with ⟨_, h2⟩
      exact h2 (List.mem_append_right _ (List.mem_singleton.mpr rfl))
  unfold unvisited
  omega

theorem bfsPush_measure (b : Board) :
    ∀ (ns paths taken : List Tile), (∀ n ∈ ns, n ∈ boardTiles b) →
      unvisited b (bfsPush ns paths taken).2 + (bfsPush ns paths taken).1.length ≤
        unvisited b taken + paths.length := by
  intro ns
  induction ns with
  | nil => intro paths taken _; exact le_refl _
  | cons n ns ih =>
    intro paths taken h
    simp only [bfsPush]
    by_cases hn : n ∈ taken
    · rw [if_pos hn]
      exact ih paths taken (fun m hm => h m (List.mem_cons_of_mem _ hm))
    · rw [if_neg hn]
      have step := unvisited_append b taken n (h n (List.mem_cons_self n ns)) hn
      have rec := ih (paths ++ [n]) (taken ++ [n])
        (fun m hm => h m (List.mem_cons_of_mem _ hm))
      rw [List.length_append, List.length_singleton] at rec
      omega

theorem bfs_escape (b : Board) (destination : Nat) (paths taken : List Tile)
    (hinv : ∀ t ∈ taken, t ∈ paths ∨
      (t.board_coord.2 ≠ destination ∧ ∀ u ∈ b.get_valid_directions t, u ∈ taken))
    {u g : Tile} (hpath : Relation.ReflTransGen (stepRel b) u g) (hu : u ∈ taken)
    (hg : g.board_coord.2 = destination) :
    ∃ p ∈ paths, ∃ g2, Relation.ReflTransGen (stepRel b) p g2 ∧
      g2.board_coord.2 = destination := by
  revert hu
  induction hpath using Relation.ReflTransGen.head_induction_on with
  | refl =>
    intro hu
    rcases hinv g hu with h | h
    · exact ⟨g, h, g, Relation.ReflTransGen.refl, hg⟩
    · exact absurd hg h.1
  | head hac hcg ih =>
    intro hu
    rename_i a c
    rcases hinv a hu with h | h
    · exact ⟨a, h, g, Relation.ReflTransGen.head hac hcg, hg⟩
    · exact ih (h.2 c hac)

theorem Board.bfsLoop_iff (b : Board) (destination : Nat) :
    ∀ (fuel : Nat) (paths taken : List Tile),
      (∀ t ∈ paths, t ∈ taken) →
      (∀ t ∈ taken, t ∈ paths ∨
        (t.board_coord.2 ≠ destination ∧ ∀ u ∈ b.get_valid_directions t, u ∈ taken)) →
      unvisited b taken + paths.length < fuel →
      (b.bfsLoop destination fuel paths taken = true ↔
        ∃ t ∈ paths, ∃ g, Relation.ReflTransGen (stepRel b) t g ∧
          g.board_coord.2 = destination) := by
  intro fuel
  induction fuel with
  | zero => intro paths taken _ _ hfuel; exact absurd hfuel (Nat.not_lt_zero _)
  | succ fuel ih =>
    intro paths taken hsub hinv hfuel
    cases paths with
    | nil =>
      simp only [Board.bfsLoop]
      constructor
      · intro h; exact absurd h (by simp)
      · intro ⟨t, ht, _⟩; exact absurd ht (List.not_mem_nil t)
    | cons t rest =>
      simp only [Board.bfsLoop]
      by_cases hg : t.board_coord.2 = destination
      · rw [if_pos hg]
        simp only [true_iff]
        exact ⟨t, List.mem_cons_self t rest, t, Relation.ReflTransGen.refl, hg⟩
      · rw [if_neg hg]
        have hsub2 : ∀ u ∈ rest, u ∈ taken := fun u hu => hsub u (List.mem_cons_of_mem _ hu)
        have htaken : ∀ u ∈ taken,
            u ∈ (bfsPush (b.get_valid_directions t) rest taken).1 ∨
              (u.board_coord.2 ≠ destination ∧
                ∀ v ∈ b.get_valid_directions u,
                  v ∈ (bfsPush (b.get_valid_directions t) rest taken).2) := by
          intro u hu
          rcases hinv u hu with hp | he
          · rcases List.mem_cons.mp hp with rfl | hr
            · exact Or.inr ⟨hg, fun v hv => bfsPush_taken_of_mem _ _ _ hv⟩
            · exact Or.inl (bfsPush_paths_mono _ _ _ hr)
          · exact Or.inr ⟨he.1, fun v hv => bfsPush_taken_mono _ _ _ (he.2 v hv)⟩
        have hinv2 : ∀ u ∈ (bfsPush (b.get_valid_directions t) rest taken).2,
            u ∈ (bfsPush (b.get_valid_directions t) rest taken).1 ∨
              (u.board_coord.2 ≠ destination ∧
                ∀ v ∈ b.get_valid_directions u,
                  v ∈ (bfsPush (b.get_valid_directions t) rest taken).2) := by
          intro u hu
          rcases bfsPush_taken_sub _ _ _ hu with h | h
          · exact htaken u h
          · rcases bfsPush_paths_or_taken _ _ _ h with h2 | h2
            · exact Or.inl h2
            · exact htaken u h2
        have hfuel2 : unvisited b (bfsPush (b.get_valid_directions t) rest taken).2 +
            (bfsPush (b.get_valid_directions t) rest taken).1.length < fuel := by
          have hm := bfsPush_measure b (b.get_valid_directions t) rest taken
            (succ_mem_boardTiles b t)
          simp only [List.length_cons] at hfuel
          omega
        rw [ih _ _ (bfsPush_sub_taken _ _ _ hsub2) hinv2 hfuel2]
        constructor
        · intro ⟨u, hu, g, hpath, hgg⟩
          rcases bfsPush_paths_sub _ _ _ hu with h | h
          · exact ⟨u, List.mem_cons_of_mem _ h, g, hpath, hgg⟩
          · exact ⟨t, List.mem_cons_self t rest, g, Relation.ReflTransGen.head h hpath, hgg⟩
        · intro ⟨u, hu, g, hpath, hgg⟩
          rcases List.mem_cons.mp hu with rfl | hr
          · rcases Relation.ReflTransGen.cases_head hpath with heq | ⟨c, hstep, hrest⟩
            · exact absurd (heq ▸ hgg) hg
            · exact bfs_escape b destination _ _ hinv2 hrest
                (bfsPush_taken_of_mem _ _ _ hstep) hgg
          · exact ⟨u, bfsPush_paths_mono _ _ _ hr, g, hpath, hgg⟩

theorem get_valid_directions_length (b : Board) (t : Tile) :
    (b.get_valid_directions t).length ≤ 4 := by
  unfold Board.get_valid_directions
  rw [List.length_map]
  exact List.length_filterMap_le id _

theorem boardTiles_card (b : Board) : (boardTiles b).card ≤ 81 := by
  unfold boardTiles
  calc (Finset.image b.grid Finset.univ).card ≤ (Finset.univ : Finset Slot).card :=
        Finset.card_image_le
    _ = 81 := by simp

theorem unvisited_le (b : Board) (taken : List Tile) : unvisited b taken ≤ 81 := by
  unfold unvisited
  exact le_trans (Finset.card_filter_le _ _) (boardTiles_card b)

/-- Characterization of `Board._fair_play`: defined whenever the player's
stored coordinate is in range, and `true` exactly when some cell whose
stored row is the goal row is reachable from the player's cell by a path of
at least one open link. -/
theorem Board.fair_play_iff (b : Board) (player : Int) :
    (b.fair_play player = some true ↔ hasRoute b player) ∧
    (inB (storedPos b player) → (b.fair_play player).isSome) := by
  have hpos : (if player = 1 then b.player_1 else b.player_2) = storedPos b player := rfl
  have hdest : (if player = 1 then (8 : Nat) else 0) = goalRow player := rfl
  simp only [Board.fair_play]
  rw [hpos, hdest]
  by_cases hin : inB (storedPos b player)
  · rw [b.tileRef_pos hin, Option.some_bind]
    constructor
    · have hloop := b.bfsLoop_iff (goalRow player) 100
        (b.get_valid_directions (b.grid (mkSlot _ hin)))
        (bfsPush (b.get_valid_directions (b.grid (mkSlot _ hin))) [] []).2
        (fun t ht => bfsPush_taken_of_mem _ _ _ ht)
        (fun t ht => by
          rcases bfsPush_taken_sub _ _ _ ht with h | h
          · exact absurd h (List.not_mem_nil t)
          · exact Or.inl h)
        (by
          have h1 := unvisited_le b
            (bfsPush (b.get_valid_directions (b.grid (mkSlot _ hin))) [] []).2
          have h2 := get_valid_directions_length b (b.grid (mkSlot _ hin))
          omega)
      rw [Option.some_inj, hloop]
      unfold hasRoute
      constructor
      · intro ⟨t, ht, g, hpath, hgg⟩
        exact ⟨b.grid (mkSlot _ hin), b.tileRef_pos hin, g,
          Relation.TransGen.head' ht hpath, hgg⟩
      · intro ⟨s, hs, g, hpath, hgg⟩
        rw [b.tileRef_pos hin, Option.some_inj] at hs
        subst hs
        rcases (Relation.TransGen.head'_iff).mp hpath with ⟨c, hstep, hrest⟩
        exact ⟨c, hstep, g, hrest, hgg⟩
    · intro _; rfl
  · rw [b.tileRef_neg hin, Option.none_bind]
    refine ⟨?_, fun h => absurd h hin⟩
    constructor
    · intro h; exact Option.noConfusion h
    · intro ⟨s, hs, _⟩
      rw [b.tileRef_neg hin] at hs
      exact Option.noConfusion hs

/-! ## Unfolding lemmas for `move_pawn` and `place_fence` -/

/-- The displacement `(row_dir, col_dir)` computed by `move_pawn`. -/
def moveDelta (b : Board) (player : Int) (new_pos : Int × Int) : Int × Int :=
  (new_pos.2 - (storedPos b player).2, new_pos.1 - (storedPos b player).1)

/-- The `moving_regularly or jumping_pawn or moving_diagonally` test of
`move_pawn`, evaluated at the player's current tile `ct`. -/
def Board.move_allowed (b : Board) (player : Int) (new_pos : Int × Int) (ct : Tile) : Bool :=
  b.can_move_regularly ct (moveDelta b player new_pos).1 (moveDelta b player new_pos).2 ||
  b.can_jump_pawn ct (moveDelta b player new_pos).1 (moveDelta b player new_pos).2 ||
  b.can_move_diagonally ct (moveDelta b player new_pos).1 (moveDelta b player new_pos).2

/-- The successful tail of `move_pawn`: clear the occupant of the current
cell, set the occupant of the target cell, update the stored coordinate. -/
def Board.commitMove (b : Board) (player : Int) (new_pos : Int × Int) : Board :=
  let b1 := b.updateRef (storedPos b player) (fun t => { t with has_pawn := 0 })
  let b2 := b1.updateRef new_pos (fun t => { t with has_pawn := player })
  if player = 1 then { b2 with player_1 := new_pos } else { b2 with player_2 := new_pos }

theorem move_pawn_oob (b : Board) (player : Int) {new_pos : Int × Int} (h : ¬ inB new_pos) :
    b.move_pawn player new_pos = some (false, b) := by
  unfold Board.move_pawn
  rw [if_pos h]

theorem move_pawn_occupied (b : Board) (player : Int) {new_pos : Int × Int} (h : inB new_pos)
    (hocc : (b.grid (mkSlot new_pos h)).has_pawn ≠ 0) :
    b.move_pawn player new_pos = some (false, b) := by
  simp only [Board.move_pawn]
  rw [if_neg (not_not_intro h), b.tileRef_pos h]
  simp only [Option.some_bind]
  rw [if_pos hocc]

theorem move_pawn_raise (b : Board) (player : Int) {new_pos : Int × Int} (h : inB new_pos)
    (hemp : (b.grid (mkSlot new_pos h)).has_pawn = 0)
    (hcur : ¬ inB (storedPos b player)) :
    b.move_pawn player new_pos = none := by
  simp only [Board.move_pawn]
  rw [if_neg (not_not_intro h), b.tileRef_pos h]
  simp only [Option.some_bind]
  rw [if_neg (not_not_intro hemp)]
  have hpos : (if player = 1 then b.player_1 else b.player_2) = storedPos b player := rfl
  rw [hpos, b.tileRef_neg hcur, Option.none_bind]

theorem move_pawn_open (b : Board) (player : Int) {new_pos : Int × Int} (h : inB new_pos)
    (hemp : (b.grid (mkSlot new_pos h)).has_pawn = 0)
    {ct : Tile} (hct : b.tileRef (storedPos b player) = some ct) :
    b.move_pawn player new_pos =
      (if b.move_allowed player new_pos ct then some (true, b.commitMove player new_pos)
       else some (false, b)) := by
  simp only [Board.move_pawn]
  rw [if_neg (not_not_intro h), b.tileRef_pos h]
  simp only [Option.some_bind]
  rw [if_neg (not_not_intro hemp)]
  have hpos : (if player = 1 then b.player_1 else b.player_2) = storedPos b player := rfl
  rw [hpos, hct]
  simp only [Option.some_bind]
  simp only [Board.move_allowed, Board.commitMove, moveDelta]
  by_cases hall : b.can_move_regularly ct (new_pos.2 - (storedPos b player).2)
      (new_pos.1 - (storedPos b player).1) ||
      b.can_jump_pawn ct (new_pos.2 - (storedPos b player).2)
        (new_pos.1 - (storedPos b player).1) ||
      b.can_move_diagonally ct (new_pos.2 - (storedPos b player).2)
        (new_pos.1 - (storedPos b player).1)
  · rw [if_pos hall, if_pos hall]
    by_cases hp1 : player = 1
    · rw [if_pos hp1, if_pos hp1]
    · rw [if_neg hp1, if_neg hp1]
  · rw [if_neg hall, if_neg hall]

/-! ## Reduction lemmas for tile updates and directions -/

theorem Tile.close_direction_north (t : Tile) :
    t.close_direction ("north") = { t with north := none } := by
  unfold Tile.close_direction
  rw [if_pos rfl]

theorem Tile.close_direction_south (t : Tile) :
    t.close_direction ("south") = { t with south := none } := by
  unfold Tile.close_direction
  rw [if_neg (by decide), if_pos rfl]

theorem Tile.close_direction_west (t : Tile) :
    t.close_direction ("west") = { t with west := none } := by
  unfold Tile.close_direction
  rw [if_neg (by decide), if_neg (by decide), if_pos rfl]

theorem Tile.close_direction_east (t : Tile) :
    t.close_direction ("east") = { t with east := none } := by
  unfold Tile.close_direction
  rw [if_neg (by decide), if_neg (by decide), if_neg (by decide), if_pos rfl]

theorem Tile.open_direction_north (t : Tile) (q : Slot) :
    t.open_direction ("north") q = { t with north := some q } := by
  unfold Tile.open_direction
  rw [if_pos rfl]

theorem Tile.open_direction_south (t : Tile) (q : Slot) :
    t.open_direction ("south") q = { t with south := some q } := by
  unfold Tile.open_direction
  rw [if_neg (by decide), if_pos rfl]

theorem Tile.open_direction_west (t : Tile) (q : Slot) :
    t.open_direction ("west") q = { t with west := some q } := by
  unfold Tile.open_direction
  rw [if_neg (by decide), if_neg (by decide), if_pos rfl]

theorem Tile.open_direction_east (t : Tile) (q : Slot) :
    t.open_direction ("east") q = { t with east := some q } := by
  unfold Tile.open_direction
  rw [if_neg (by decide), if_neg (by decide), if_neg (by decide), if_pos rfl]

theorem Tile.get_direction_west (t : Tile) : t.get_direction (-1, 0) = t.west := rfl

theorem Tile.get_direction_north (t : Tile) : t.get_direction (0, -1) = t.north := rfl

theorem place_fence_invalid (b : Board) (direction : String) (position : Int × Int)
    (h : ¬ (direction = "v" ∨ direction = "h") ∨ ¬ inB position) :
    b.place_fence direction position = some (FenceResult.rejected, b) := by
  unfold Board.place_fence
  rcases h with h | h
  · rw [if_pos h]
  · by_cases hd : ¬ (direction = "v" ∨ direction = "h")
    · rw [if_pos hd]
    · rw [if_neg hd, if_pos h]

theorem place_fence_valid (b : Board) {direction : String} {position : Int × Int}
    (hd : direction = "v" ∨ direction = "h") (hpos : inB position) :
    b.place_fence direction position =
      b.place_fence_in_direction direction (mkSlot position hpos) := by
  unfold Board.place_fence
  rw [if_neg (not_not_intro hd), if_neg (not_not_intro hpos), slotOf_pos hpos,
    Option.some_bind]

theorem pfid_v_none (b : Board) (q : Slot) (h : (b.grid q).west = none) :
    b.place_fence_in_direction ("v") q = some (FenceResult.rejected, b) := by
  unfold Board.place_fence_in_direction
  rw [if_pos rfl, Tile.get_direction_west, h]

theorem pfid_v_some (b : Board) (q : Slot) {bq : Slot} (h : (b.grid q).west = some bq) :
    b.place_fence_in_direction ("v") q =
      (b.closePair q bq ("west") ("east")).fair_fail.bind (fun fail =>
        if fail then
          some (FenceResult.breaksFairPlay,
            (b.closePair q bq ("west") ("east")).openPair q bq ("west") ("east"))
        else some (FenceResult.placed, b.closePair q bq ("west") ("east"))) := by
  unfold Board.place_fence_in_direction
  rw [if_pos rfl, Tile.get_direction_west, h]

theorem pfid_h_none (b : Board) (q : Slot) (h : (b.grid q).north = none) :
    b.place_fence_in_direction ("h") q = some (FenceResult.rejected, b) := by
  unfold Board.place_fence_in_direction
  rw [if_neg (by decide), if_pos rfl, Tile.get_direction_north, h]

theorem pfid_h_some (b : Board) (q : Slot) {bq : Slot} (h : (b.grid q).north = some bq) :
    b.place_fence_in_direction ("h") q =
      (b.closePair q bq ("north") ("south")).fair_fail.bind (fun fail =>
        if fail then
          some (FenceResult.breaksFairPlay,
            (b.closePair q bq ("north") ("south")).openPair q bq ("north") ("south"))
        else some (FenceResult.placed, b.closePair q bq ("north") ("south"))) := by
  unfold Board.place_fence_in_direction
  rw [if_neg (by decide), if_pos rfl, Tile.get_direction_north, h]

theorem storedPos_one (b : Board) : storedPos b 1 = b.player_1 := rfl

theorem storedPos_two (b : Board) : storedPos b 2 = b.player_2 := by
  unfold storedPos
  rw [if_neg (by decide)]

/-- Characterization of the `not _fair_play(1) or not _fair_play(2)` test:
under in-range stored coordinates it is defined, and it reports failure
exactly when some player has no route (of at least one link) to its goal
row. -/
theorem fair_fail_spec (b : Board) (hs : storedInB b) :
    (b.fair_fail = some true ↔ ¬ (hasRoute b 1 ∧ hasRoute b 2)) ∧
    (b.fair_fail = some false ↔ (hasRoute b 1 ∧ hasRoute b 2)) := by
  have h1s : (b.fair_play 1).isSome := (b.fair_play_iff 1).2 (by rw [storedPos_one]; exact hs.1)
  have h2s : (b.fair_play 2).isSome := (b.fair_play_iff 2).2 (by rw [storedPos_two]; exact hs.2)
  rcases Option.isSome_iff_exists.mp h1s with ⟨f1, hf1⟩
  rcases Option.isSome_iff_exists.mp h2s with ⟨f2, hf2⟩
  have hr1 := (b.fair_play_iff 1).1
  have hr2 := (b.fair_play_iff 2).1
  unfold Board.fair_fail
  rw [hf1, Option.some_bind]
  cases f1 with
  | false =>
    rw [if_neg (by decide)]
    have hnr1 : ¬ hasRoute b 1 := by
      intro hr
      rw [hf1] at hr1
      have := hr1.mpr hr
      exact absurd this (by decide)
    constructor
    · constructor
      · intro _; intro hc; exact hnr1 hc.1
      · intro _; rfl
    · constructor
      · intro hc; exact absurd hc (by decide)
      · intro hc; exact absurd hc.1 hnr1
  | true =>
    rw [if_pos rfl, hf2, Option.some_bind]
    have hyr1 : hasRoute b 1 := by
      rw [hf1] at hr1
      exact hr1.mp rfl
    cases f2 with
    | false =>
      have hnr2 : ¬ hasRoute b 2 := by
        intro hr
        rw [hf2] at hr2
        have := hr2.mpr hr
        exact absurd this (by decide)
      constructor
      · constructor
        · intro _; intro hc; exact hnr2 hc.2
        · intro _; rfl
      · constructor
        · intro hc; exact absurd hc (by decide)
        · intro hc; exact absurd hc.2 hnr2
    | true =>
      have hyr2 : hasRoute b 2 := by
        rw [hf2] at hr2
        exact hr2.mp rfl
      constructor
      · constructor
        · intro hc; exact absurd hc (by decide)
        · intro hc; exact absurd ⟨hyr1, hyr2⟩ hc
      · constructor
        · intro _; exact ⟨hyr1, hyr2⟩
        · intro _; rfl

/-! ## Slot geometry and the effect of closing and reopening a link pair -/

theorem leftOf_rightOf {q u : Slot} (h : leftOf q = some u) : rightOf u = some q := by
  unfold leftOf at h
  by_cases h0 : q.1.val = 0
  · rw [dif_pos h0] at h; exact Option.noConfusion h
  · rw [dif_neg h0] at h
    have hq := q.1.isLt
    cases Option.some_inj.mp h
    unfold rightOf
    rw [dif_neg (by simp; omega)]
    simp only [Option.some_inj]
    refine Prod.ext ?_ rfl
    apply Fin.ext
    simp
    omega

theorem upOf_downOf {q u : Slot} (h : upOf q = some u) : downOf u = some q := by
  unfold upOf at h
  by_cases h0 : q.2.val = 0
  · rw [dif_pos h0] at h; exact Option.noConfusion h
  · rw [dif_neg h0] at h
    have hq := q.2.isLt
    cases Option.some_inj.mp h
    unfold downOf
    rw [dif_neg (by simp; omega)]
    simp only [Option.some_inj]
    refine Prod.ext rfl ?_
    apply Fin.ext
    simp
    omega

theorem leftOf_ne {q u : Slot} (h : leftOf q = some u) : u ≠ q := by
  unfold leftOf at h
  by_cases h0 : q.1.val = 0
  · rw [dif_pos h0] at h; exact Option.noConfusion h
  · rw [dif_neg h0] at h
    cases Option.some_inj.mp h
    intro hc
    have := congrArg (fun s => s.1.val) hc
    simp at this
    omega

theorem upOf_ne {q u : Slot} (h : upOf q = some u) : u ≠ q := by
  unfold upOf at h
  by_cases h0 : q.2.val = 0
  · rw [dif_pos h0] at h; exact Option.noConfusion h
  · rw [dif_neg h0] at h
    cases Option.some_inj.mp h
    intro hc
    have := congrArg (fun s => s.2.val) hc
    simp at this
    omega

theorem Board.ext2 (b1 b2 : Board) (hg : ∀ q, b1.grid q = b2.grid q)
    (h1 : b1.player_1 = b2.player_1) (h2 : b1.player_2 = b2.player_2) : b1 = b2 := by
  cases b1
  cases b2
  simp only [Board.mk.injEq]
  exact ⟨funext hg, h1, h2⟩

theorem closePair_v_grid (b : Board) (q bq : Slot) (hne : bq ≠ q) (q2 : Slot) :
    (b.closePair q bq ("west") ("east")).grid q2 =
      if q2 = bq then { b.grid bq with east := none }
      else if q2 = q then { b.grid q with west := none }
      else b.grid q2 := by
  unfold Board.closePair
  rw [Board.updateSlot_grid, Board.updateSlot_grid]
  by_cases h1 : q2 = bq
  · subst h1
    rw [if_pos rfl, if_pos rfl, if_neg hne, Tile.close_direction_east]
  · rw [if_neg h1, if_neg h1]
    by_cases h2 : q2 = q
    · subst h2
      rw [if_pos rfl, if_pos rfl, Tile.close_direction_west]
    · rw [if_neg h2, if_neg h2]

theorem closePair_h_grid (b : Board) (q bq : Slot) (hne : bq ≠ q) (q2 : Slot) :
    (b.closePair q bq ("north") ("south")).grid q2 =
      if q2 = bq then { b.grid bq with south := none }
      else if q2 = q then { b.grid q with north := none }
      else b.grid q2 := by
  unfold Board.closePair
  rw [Board.updateSlot_grid, Board.updateSlot_grid]
  by_cases h1 : q2 = bq
  · subst h1
    rw [if_pos rfl, if_pos rfl, if_neg hne, Tile.close_direction_south]
  · rw [if_neg h1, if_neg h1]
    by_cases h2 : q2 = q
    · subst h2
      rw [if_pos rfl, if_pos rfl, Tile.close_direction_north]
    · rw [if_neg h2, if_neg h2]

theorem closePair_players (b : Board) (q bq : Slot) (dq dbq : String) :
    (b.closePair q bq dq dbq).player_1 = b.player_1 ∧
    (b.closePair q bq dq dbq).player_2 = b.player_2 := ⟨rfl, rfl⟩

theorem openPair_players (b : Board) (q bq : Slot) (dq dbq : String) :
    (b.openPair q bq dq dbq).player_1 = b.player_1 ∧
    (b.openPair q bq dq dbq).player_2 = b.player_2 := ⟨rfl, rfl⟩

theorem rollback_v (b : Board) (q bq : Slot) (hne : bq ≠ q)
    (hw : (b.grid q).west = some bq) (he : (b.grid bq).east = some q) :
    (b.closePair q bq ("west") ("east")).openPair q bq ("west") ("east") = b := by
  apply Board.ext2
  · intro q2
    unfold Board.openPair
    rw [Board.updateSlot_grid, Board.updateSlot_grid]
    by_cases h1 : q2 = bq
    · have h2 : ¬ q2 = q := by rw [h1]; exact hne
      rw [if_pos h1, if_neg h2, closePair_v_grid b q bq hne q2, if_pos h1,
        Tile.open_direction_east, h1, ← he]
    · rw [if_neg h1]
      by_cases h2 : q2 = q
      · rw [if_pos h2, closePair_v_grid b q bq hne q2, if_neg h1, if_pos h2,
          Tile.open_direction_west, h2, ← hw]
      · rw [if_neg h2, closePair_v_grid b q bq hne q2, if_neg h1, if_neg h2]
  · rfl
  · rfl

theorem rollback_h (b : Board) (q bq : Slot) (hne : bq ≠ q)
    (hn : (b.grid q).north = some bq) (hs : (b.grid bq).south = some q) :
    (b.closePair q bq ("north") ("south")).openPair q bq ("north") ("south") = b := by
  apply Board.ext2
  · intro q2
    unfold Board.openPair
    rw [Board.updateSlot_grid, Board.updateSlot_grid]
    by_cases h1 : q2 = bq
    · have h2 : ¬ q2 = q := by rw [h1]; exact hne
      rw [if_pos h1, if_neg h2, closePair_h_grid b q bq hne q2, if_pos h1,
        Tile.open_direction_south, h1, ← hs]
    · rw [if_neg h1]
      by_cases h2 : q2 = q
      · rw [if_pos h2, closePair_h_grid b q bq hne q2, if_neg h1, if_pos h2,
          Tile.open_direction_north, h2, ← hn]
      · rw [if_neg h2, closePair_h_grid b q bq hne q2, if_neg h1, if_neg h2]
  · rfl
  · rfl

/-! ## Preservation of the link invariant -/

theorem pairOK_none (b : Board) (q : Slot) (link rev : Tile → Option Slot) :
    pairOK b q link rev none ↔ link (b.grid q) = none := Iff.rfl

theorem pairOK_some (b : Board) (q : Slot) (link rev : Tile → Option Slot) (u : Slot) :
    pairOK b q link rev (some u) ↔
      ((link (b.grid q) = none ∧ rev (b.grid u) = none) ∨
       (link (b.grid q) = some u ∧ rev (b.grid u) = some q)) := Iff.rfl

theorem west_link_facts {b : Board} (hwf : LinksWF b) {q bq : Slot}
    (hw : (b.grid q).west = some bq) :
    leftOf q = some bq ∧ (b.grid bq).east = some q := by
  have h := (hwf q).2.2.2
  cases hl : leftOf q with
  | none =>
    rw [hl, pairOK_none] at h
    rw [h] at hw
    exact Option.noConfusion hw
  | some u =>
    rw [hl, pairOK_some] at h
    rcases h with ⟨h1, _⟩ | ⟨h1, h2⟩
    · rw [h1] at hw; exact Option.noConfusion hw
    · rw [h1] at hw
      have hub := Option.some_inj.mp hw
      rw [hub] at h2
      exact ⟨by rw [hub], h2⟩

theorem north_link_facts {b : Board} (hwf : LinksWF b) {q bq : Slot}
    (hn : (b.grid q).north = some bq) :
    upOf q = some bq ∧ (b.grid bq).south = some q := by
  have h := (hwf q).1
  cases hl : upOf q with
  | none =>
    rw [hl, pairOK_none] at h
    rw [h] at hn
    exact Option.noConfusion hn
  | some u =>
    rw [hl, pairOK_some] at h
    rcases h with ⟨h1, _⟩ | ⟨h1, h2⟩
    · rw [h1] at hn; exact Option.noConfusion hn
    · rw [h1] at hn
      have hub := Option.some_inj.mp hn
      rw [hub] at h2
      exact ⟨by rw [hub], h2⟩

theorem pairOK_transfer {b b2 : Board} {q : Slot} {link rev : Tile → Option Slot}
    (hl : link (b2.grid q) = link (b.grid q))
    (hr : ∀ z, rev (b2.grid z) = rev (b.grid z)) (geo : Option Slot)
    (h : pairOK b q link rev geo) : pairOK b2 q link rev geo := by
  cases geo with
  | none => rw [pairOK_none] at h ⊢; rw [hl]; exact h
  | some u =>
    rw [pairOK_some] at h ⊢
    rw [hl, hr u]
    exact h

theorem linksWF_transfer {b b2 : Board}
    (h : ∀ z, (b2.grid z).north = (b.grid z).north ∧ (b2.grid z).south = (b.grid z).south ∧
        (b2.grid z).east = (b.grid z).east ∧ (b2.grid z).west = (b.grid z).west)
    (hwf : LinksWF b) : LinksWF b2 := by
  intro q
  obtain ⟨h1, h2, h3, h4⟩ := hwf q
  exact ⟨pairOK_transfer (h q).1 (fun z => (h z).2.1) _ h1,
    pairOK_transfer (h q).2.1 (fun z => (h z).1) _ h2,
    pairOK_transfer (h q).2.2.1 (fun z => (h z).2.2.2) _ h3,
    pairOK_transfer (h q).2.2.2 (fun z => (h z).2.2.1) _ h4⟩

theorem linksWF_closePair_v {b : Board} (hwf : LinksWF b) {q bq : Slot}
    (hw : (b.grid q).west = some bq) : LinksWF (b.closePair q bq ("west") ("east")) := by
  obtain ⟨hl, he⟩ := west_link_facts hwf hw
  have hne : bq ≠ q := leftOf_ne hl
  have hrq : rightOf bq = some q := leftOf_rightOf hl
  have gN : ∀ z, ((b.closePair q bq ("west") ("east")).grid z).north = (b.grid z).north := by
    intro z
    rw [closePair_v_grid b q bq hne z]
    split_ifs with hA hB
    · rw [hA]
    · rw [hB]
    · rfl
  have gS : ∀ z, ((b.closePair q bq ("west") ("east")).grid z).south = (b.grid z).south := by
    intro z
    rw [closePair_v_grid b q bq hne z]
    split_ifs with hA hB
    · rw [hA]
    · rw [hB]
    · rfl
  have gE : ∀ z, ((b.closePair q bq ("west") ("east")).grid z).east =
      if z = bq then none else (b.grid z).east := by
    intro z
    rw [closePair_v_grid b q bq hne z]
    split_ifs with hA hB
    · rfl
    · rw [hB]
    · rfl
  have gW : ∀ z, ((b.closePair q bq ("west") ("east")).grid z).west =
      if z = q then none else (b.grid z).west := by
    intro z
    rw [closePair_v_grid b q bq hne z]
    by_cases hA : z = bq
    · rw [if_pos hA, if_neg (show ¬ z = q by rw [hA]; exact hne), hA]
    · rw [if_neg hA]
      by_cases hB : z = q
      · rw [if_pos hB, if_pos hB]
      · rw [if_neg hB, if_neg hB]
  intro q2
  obtain ⟨h1, h2, h3, h4⟩ := hwf q2
  refine ⟨pairOK_transfer (gN q2) gS _ h1, pairOK_transfer (gS q2) gN _ h2, ?_, ?_⟩
  · cases hgeo : rightOf q2 with
    | none =>
      rw [pairOK_none]
      rw [hgeo, pairOK_none] at h3
      rw [gE q2]
      split_ifs with hA
      · rfl
      · exact h3
    | some u =>
      rw [pairOK_some, gE q2, gW u]
      rw [hgeo, pairOK_some] at h3
      by_cases hA : q2 = bq
      · rw [if_pos hA]
        have hu : u = q := by
          rw [hA, hrq] at hgeo
          exact (Option.some_inj.mp hgeo).symm
        rw [if_pos hu]
        exact Or.inl ⟨rfl, rfl⟩
      · rw [if_neg hA]
        rcases h3 with ⟨hE, hWu⟩ | ⟨hE, hWu⟩
        · refine Or.inl ⟨hE, ?_⟩
          split_ifs with hB
          · rfl
          · exact hWu
        · have hune : u ≠ q := by
            intro hc
            rw [hc, hw] at hWu
            exact hA (Option.some_inj.mp hWu).symm
          rw [if_neg hune]
          exact Or.inr ⟨hE, hWu⟩
  · cases hgeo : leftOf q2 with
    | none =>
      rw [pairOK_none]
      rw [hgeo, pairOK_none] at h4
      rw [gW q2]
      split_ifs with hA
      · rfl
      · exact h4
    | some u =>
      rw [pairOK_some, gW q2, gE u]
      rw [hgeo, pairOK_some] at h4
      by_cases hA : q2 = q
      · rw [if_pos hA]
        have hu : u = bq := by
          rw [hA, hl] at hgeo
          exact (Option.some_inj.mp hgeo).symm
        rw [if_pos hu]
        exact Or.inl ⟨rfl, rfl⟩
      · rw [if_neg hA]
        rcases h4 with ⟨hW, hEu⟩ | ⟨hW, hEu⟩
        · refine Or.inl ⟨hW, ?_⟩
          split_ifs with hB
          · rfl
          · exact hEu
        · have hune : u ≠ bq := by
            intro hc
            rw [hc, he] at hEu
            exact hA (Option.some_inj.mp hEu).symm
          rw [if_neg hune]
          exact Or.inr ⟨hW, hEu⟩

theorem linksWF_closePair_h {b : Board} (hwf : LinksWF b) {q bq : Slot}
    (hn : (b.grid q).north = some bq) : LinksWF (b.closePair q bq ("north") ("south")) := by
  obtain ⟨hl, hs⟩ := north_link_facts hwf hn
  have hne : bq ≠ q := upOf_ne hl
  have hdq : downOf bq = some q := upOf_downOf hl
  have gE : ∀ z, ((b.closePair q bq ("north") ("south")).grid z).east = (b.grid z).east := by
    intro z
    rw [closePair_h_grid b q bq hne z]
    split_ifs with hA hB
    · rw [hA]
    · rw [hB]
    · rfl
  have gW : ∀ z, ((b.closePair q bq ("north") ("south")).grid z).west = (b.grid z).west := by
    intro z
    rw [closePair_h_grid b q bq hne z]
    split_ifs with hA hB
    · rw [hA]
    · rw [hB]
    · rfl
  have gS : ∀ z, ((b.closePair q bq ("north") ("south")).grid z).south =
      if z = bq then none else (b.grid z).south := by
    intro z
    rw [closePair_h_grid b q bq hne z]
    split_ifs with hA hB
    · rfl
    · rw [hB]
    · rfl
  have gN : ∀ z, ((b.closePair q bq ("north") ("south")).grid z).north =
      if z = q then none else (b.grid z).north := by
    intro z
    rw [closePair_h_grid b q bq hne z]
    by_cases hA : z = bq
    · rw [if_pos hA, if_neg (show ¬ z = q by rw [hA]; exact hne), hA]
    · rw [if_neg hA]
      by_cases hB : z = q
      · rw [if_pos hB, if_pos hB]
      · rw [if_neg hB, if_neg hB]
  intro q2
  obtain ⟨h1, h2, h3, h4⟩ := hwf q2
  refine ⟨?_, ?_, pairOK_transfer (gE q2) gW _ h3, pairOK_transfer (gW q2) gE _ h4⟩
  · cases hgeo : upOf q2 with
    | none =>
      rw [pairOK_none]
      rw [hgeo, pairOK_none] at h1
      rw [gN q2]
      split_ifs with hA
      · rfl
      · exact h1
    | some u =>
      rw [pairOK_some, gN q2, gS u]
      rw [hgeo, pairOK_some] at h1
      by_cases hA : q2 = q
      · rw [if_pos hA]
        have hu : u = bq := by
          rw [hA, hl] at hgeo
          exact (Option.some_inj.mp hgeo).symm
        rw [if_pos hu]
        exact Or.inl ⟨rfl, rfl⟩
      · rw [if_neg hA]
        rcases h1 with ⟨hN, hSu⟩ | ⟨hN, hSu⟩
        · refine Or.inl ⟨hN, ?_⟩
          split_ifs with hB
          · rfl
          · exact hSu
        · have hune : u ≠ bq := by
            intro hc
            rw [hc, hs] at hSu
            exact hA (Option.some_inj.mp hSu).symm
          rw [if_neg hune]
          exact Or.inr ⟨hN, hSu⟩
  · cases hgeo : downOf q2 with
    | none =>
      rw [pairOK_none]
      rw [hgeo, pairOK_none] at h2
      rw [gS q2]
      split_ifs with hA
      · rfl
      · exact h2
    | some u =>
      rw [pairOK_some, gS q2, gN u]
      rw [hgeo, pairOK_some] at h2
      by_cases hA : q2 = bq
      · rw [if_pos hA]
        have hu : u = q := by
          rw [hA, hdq] at hgeo
          exact (Option.some_inj.mp hgeo).symm
        rw [if_pos hu]
        exact Or.inl ⟨rfl, rfl⟩
      · rw [if_neg hA]
        rcases h2 with ⟨hS, hNu⟩ | ⟨hS, hNu⟩
        · refine Or.inl ⟨hS, ?_⟩
          split_ifs with hB
          · rfl
          · exact hNu
        · have hune : u ≠ q := by
            intro hc
            rw [hc, hn] at hNu
            exact hA (Option.some_inj.mp hNu).symm
          rw [if_neg hune]
          exact Or.inr ⟨hS, hNu⟩

theorem rightOf_leftOf {q u : Slot} (h : rightOf q = some u) : leftOf u = some q := by
  unfold rightOf at h
  by_cases h0 : q.1.val = 8
  · rw [dif_pos h0] at h; exact Option.noConfusion h
  · rw [dif_neg h0] at h
    have hq := q.1.isLt
    cases Option.some_inj.mp h
    unfold leftOf
    rw [dif_neg (by simp)]
    simp only [Option.some_inj]
    refine Prod.ext ?_ rfl
    apply Fin.ext
    simp

theorem downOf_upOf {q u : Slot} (h : downOf q = some u) : upOf u = some q := by
  unfold downOf at h
  by_cases h0 : q.2.val = 8
  · rw [dif_pos h0] at h; exact Option.noConfusion h
  · rw [dif_neg h0] at h
    have hq := q.2.isLt
    cases Option.some_inj.mp h
    unfold upOf
    rw [dif_neg (by simp)]
    simp only [Option.some_inj]
    refine Prod.ext rfl ?_
    apply Fin.ext
    simp

theorem linksWF_initial : LinksWF initialBoard := by
  intro q
  refine ⟨?_, ?_, ?_, ?_⟩
  · cases hgeo : upOf q with
    | none => rw [pairOK_none]; exact hgeo
    | some u =>
      rw [pairOK_some]
      exact Or.inr ⟨hgeo, upOf_downOf hgeo⟩
  · cases hgeo : downOf q with
    | none => rw [pairOK_none]; exact hgeo
    | some u =>
      rw [pairOK_some]
      exact Or.inr ⟨hgeo, downOf_upOf hgeo⟩
  · cases hgeo : rightOf q with
    | none => rw [pairOK_none]; exact hgeo
    | some u =>
      rw [pairOK_some]
      exact Or.inr ⟨hgeo, rightOf_leftOf hgeo⟩
  · cases hgeo : leftOf q with
    | none => rw [pairOK_none]; exact hgeo
    | some u =>
      rw [pairOK_some]
      exact Or.inr ⟨hgeo, leftOf_rightOf hgeo⟩

/-! ## The shape of a committed pawn move -/

theorem commitMove_grid (b : Board) (player : Int) {new_pos : Int × Int} (hin : inB new_pos)
    (hcur : inB (storedPos b player)) (z : Slot) :
    (b.commitMove player new_pos).grid z =
      if z = mkSlot new_pos hin then { b.grid z with has_pawn := player }
      else if z = mkSlot (storedPos b player) hcur then { b.grid z with has_pawn := 0 }
      else b.grid z := by
  unfold Board.commitMove
  rw [b.updateRef_pos hcur]
  have hgrid : ∀ (bx : Board), bx.grid = b.grid → ∀ w,
      ((bx.updateRef new_pos fun t => { t with has_pawn := player })).grid w =
        if w = mkSlot new_pos hin then { bx.grid w with has_pawn := player } else bx.grid w := by
    intro bx _ w
    rw [bx.updateRef_pos hin, Board.updateSlot_grid]
  by_cases hp1 : player = 1
  · rw [if_pos hp1]
    show ((b.updateSlot (mkSlot (storedPos b player) hcur) fun t =>
        { t with has_pawn := 0 }).updateRef new_pos fun t =>
        { t with has_pawn := player }).grid z = _
    rw [Board.updateRef_pos _ hin, Board.updateSlot_grid, Board.updateSlot_grid]
    by_cases h1 : z = mkSlot new_pos hin
    · rw [if_pos h1, if_pos h1]
      by_cases h2 : z = mkSlot (storedPos b player) hcur
      · rw [if_pos h2]
      · rw [if_neg h2]
    · rw [if_neg h1, if_neg h1]
  · rw [if_neg hp1]
    show ((b.updateSlot (mkSlot (storedPos b player) hcur) fun t =>
        { t with has_pawn := 0 }).updateRef new_pos fun t =>
        { t with has_pawn := player }).grid z = _
    rw [Board.updateRef_pos _ hin, Board.updateSlot_grid, Board.updateSlot_grid]
    by_cases h1 : z = mkSlot new_pos hin
    · rw [if_pos h1, if_pos h1]
      by_cases h2 : z = mkSlot (storedPos b player) hcur
      · rw [if_pos h2]
      · rw [if_neg h2]
    · rw [if_neg h1, if_neg h1]

theorem Board.updateRef_players (b : Board) (p : Int × Int) (f : Tile → Tile) :
    (b.updateRef p f).player_1 = b.player_1 ∧ (b.updateRef p f).player_2 = b.player_2 := by
  unfold Board.updateRef
  cases slotOf p <;> exact ⟨rfl, rfl⟩

theorem commitMove_players (b : Board) (player : Int) (new_pos : Int × Int) :
    (b.commitMove player new_pos).player_1 =
        (if player = 1 then new_pos else b.player_1) ∧
      (b.commitMove player new_pos).player_2 =
        (if player = 1 then b.player_2 else new_pos) := by
  unfold Board.commitMove
  by_cases hp1 : player = 1
  · rw [if_pos hp1, if_pos hp1, if_pos hp1]
    refine ⟨rfl, ?_⟩
    show ((b.updateRef _ _).updateRef _ _).player_2 = b.player_2
    rw [(Board.updateRef_players _ _ _).2, (Board.updateRef_players _ _ _).2]
  · rw [if_neg hp1, if_neg hp1, if_neg hp1]
    refine ⟨?_, rfl⟩
    show ((b.updateRef _ _).updateRef _ _).player_1 = b.player_1
    rw [(Board.updateRef_players _ _ _).1, (Board.updateRef_players _ _ _).1]

theorem linksWF_commitMove {b : Board} (hwf : LinksWF b) (player : Int)
    {new_pos : Int × Int} (hin : inB new_pos) (hcur : inB (storedPos b player)) :
    LinksWF (b.commitMove player new_pos) := by
  refine linksWF_transfer ?_ hwf
  intro z
  rw [commitMove_grid b player hin hcur z]
  split_ifs <;> exact ⟨rfl, rfl, rfl, rfl⟩

/-! ## Outcome characterizations of the two mutating operations -/

theorem pair_eq_snd {α β : Type} {x r : α} {y b2 : β} (h : (x, y) = (r, b2)) : y = b2 :=
  congrArg Prod.snd h

theorem pair_eq_fst {α β : Type} {x r : α} {y b2 : β} (h : (x, y) = (r, b2)) : x = r :=
  congrArg Prod.fst h

theorem linksWF_move_pawn {b : Board} (hwf : LinksWF b) (player : Int) (new_pos : Int × Int)
    {r : Bool} {b2 : Board} (hmv : b.move_pawn player new_pos = some (r, b2)) :
    LinksWF b2 := by
  by_cases hin : inB new_pos
  · by_cases hocc : (b.grid (mkSlot new_pos hin)).has_pawn = 0
    · by_cases hcur : inB (storedPos b player)
      · rw [move_pawn_open b player hin hocc (b.tileRef_pos hcur)] at hmv
        by_cases hall : b.move_allowed player new_pos (b.grid (mkSlot _ hcur)) = true
        · rw [if_pos hall] at hmv
          have hb := pair_eq_snd (Option.some_inj.mp hmv)
          exact hb ▸ linksWF_commitMove hwf player hin hcur
        · rw [if_neg hall] at hmv
          have hb := pair_eq_snd (Option.some_inj.mp hmv)
          exact hb ▸ hwf
      · rw [move_pawn_raise b player hin hocc hcur] at hmv
        exact Option.noConfusion hmv
    · rw [move_pawn_occupied b player hin hocc] at hmv
      have hb := pair_eq_snd (Option.some_inj.mp hmv)
      exact hb ▸ hwf
  · rw [move_pawn_oob b player hin] at hmv
    have hb := pair_eq_snd (Option.some_inj.mp hmv)
    exact hb ▸ hwf

theorem linksWF_place_fence {b : Board} (hwf : LinksWF b) (direction : String)
    (position : Int × Int) {r : FenceResult} {b2 : Board}
    (hpf : b.place_fence direction position = some (r, b2)) : LinksWF b2 := by
  by_cases hval : (direction = "v" ∨ direction = "h") ∧ inB position
  · obtain ⟨hd, hpos⟩ := hval
    rw [place_fence_valid b hd hpos] at hpf
    rcases hd with rfl | rfl
    · cases hw : (b.grid (mkSlot position hpos)).west with
      | none =>
        rw [pfid_v_none _ _ hw] at hpf
        have hb := pair_eq_snd (Option.some_inj.mp hpf)
        exact hb ▸ hwf
      | some bq =>
        rw [pfid_v_some _ _ hw] at hpf
        obtain ⟨hl, he⟩ := west_link_facts hwf hw
        have hne := leftOf_ne hl
        cases hff : (b.closePair (mkSlot position hpos) bq ("west") ("east")).fair_fail with
        | none =>
          rw [hff, Option.none_bind] at hpf
          exact Option.noConfusion hpf
        | some fail =>
          rw [hff, Option.some_bind] at hpf
          cases fail with
          | true =>
            rw [if_pos rfl] at hpf
            have hb := pair_eq_snd (Option.some_inj.mp hpf)
            rw [rollback_v b _ bq hne hw he] at hb
            exact hb ▸ hwf
          | false =>
            rw [if_neg (by decide)] at hpf
            have hb := pair_eq_snd (Option.some_inj.mp hpf)
            exact hb ▸ linksWF_closePair_v hwf hw
    · cases hn : (b.grid (mkSlot position hpos)).north with
      | none =>
        rw [pfid_h_none _ _ hn] at hpf
        have hb := pair_eq_snd (Option.some_inj.mp hpf)
        exact hb ▸ hwf
      | some bq =>
        rw [pfid_h_some _ _ hn] at hpf
        obtain ⟨hl, hso⟩ := north_link_facts hwf hn
        have hne := upOf_ne hl
        cases hff : (b.closePair (mkSlot position hpos) bq ("north") ("south")).fair_fail with
        | none =>
          rw [hff, Option.none_bind] at hpf
          exact Option.noConfusion hpf
        | some fail =>
          rw [hff, Option.some_bind] at hpf
          cases fail with
          | true =>
            rw [if_pos rfl] at hpf
            have hb := pair_eq_snd (Option.some_inj.mp hpf)
            rw [rollback_h b _ bq hne hn hso] at hb
            exact hb ▸ hwf
          | false =>
            rw [if_neg (by decide)] at hpf
            have hb := pair_eq_snd (Option.some_inj.mp hpf)
            exact hb ▸ linksWF_closePair_h hwf hn
  · rw [place_fence_invalid b direction position (not_and_or.mp hval)] at hpf
    have hb := pair_eq_snd (Option.some_inj.mp hpf)
    exact hb ▸ hwf

theorem linksWF_of_reachable {b : Board} (h : Reachable b) : LinksWF b := by
  induction h with
  | init => exact linksWF_initial
  | move b player new_pos r b2 _ hmv ih => exact linksWF_move_pawn ih player new_pos hmv
  | fence b direction position r b2 _ hpf ih => exact linksWF_place_fence ih direction position hpf

theorem storedInB_closePair (b : Board) (q bq : Slot) (dq dbq : String)
    (hs : storedInB b) : storedInB (b.closePair q bq dq dbq) := by
  unfold storedInB
  rw [(closePair_players b q bq dq dbq).1, (closePair_players b q bq dq dbq).2]
  exact hs

theorem place_fence_v_placed (b : Board) (hs : storedInB b) {position : Int × Int}
    (hpos : inB position) {bq : Slot}
    (hw : (b.grid (mkSlot position hpos)).west = some bq)
    (hr : hasRoute (b.closePair (mkSlot position hpos) bq ("west") ("east")) 1 ∧
        hasRoute (b.closePair (mkSlot position hpos) bq ("west") ("east")) 2) :
    b.place_fence ("v") position =
      some (FenceResult.placed, b.closePair (mkSlot position hpos) bq ("west") ("east")) := by
  rw [place_fence_valid b (Or.inl rfl) hpos, pfid_v_some _ _ hw,
    ((fair_fail_spec _ (storedInB_closePair b _ bq _ _ hs)).2.mpr hr), Option.some_bind,
    if_neg (by decide)]

theorem place_fence_v_breaks (b : Board) (hs : storedInB b) {position : Int × Int}
    (hpos : inB position) {bq : Slot}
    (hw : (b.grid (mkSlot position hpos)).west = some bq)
    (hr : ¬ (hasRoute (b.closePair (mkSlot position hpos) bq ("west") ("east")) 1 ∧
        hasRoute (b.closePair (mkSlot position hpos) bq ("west") ("east")) 2)) :
    b.place_fence ("v") position =
      some (FenceResult.breaksFairPlay,
        (b.closePair (mkSlot position hpos) bq ("west") ("east")).openPair
          (mkSlot position hpos) bq ("west") ("east")) := by
  rw [place_fence_valid b (Or.inl rfl) hpos, pfid_v_some _ _ hw,
    ((fair_fail_spec _ (storedInB_closePair b _ bq _ _ hs)).1.mpr hr), Option.some_bind,
    if_pos rfl]

theorem place_fence_h_placed (b : Board) (hs : storedInB b) {position : Int × Int}
    (hpos : inB position) {bq : Slot}
    (hn : (b.grid (mkSlot position hpos)).north = some bq)
    (hr : hasRoute (b.closePair (mkSlot position hpos) bq ("north") ("south")) 1 ∧
        hasRoute (b.closePair (mkSlot position hpos) bq ("north") ("south")) 2) :
    b.place_fence ("h") position =
      some (FenceResult.placed, b.closePair (mkSlot position hpos) bq ("north") ("south")) := by
  rw [place_fence_valid b (Or.inr rfl) hpos, pfid_h_some _ _ hn,
    ((fair_fail_spec _ (storedInB_closePair b _ bq _ _ hs)).2.mpr hr), Option.some_bind,
    if_neg (by decide)]

theorem place_fence_h_breaks (b : Board) (hs : storedInB b) {position : Int × Int}
    (hpos : inB position) {bq : Slot}
    (hn : (b.grid (mkSlot position hpos)).north = some bq)
    (hr : ¬ (hasRoute (b.closePair (mkSlot position hpos) bq ("north") ("south")) 1 ∧
        hasRoute (b.closePair (mkSlot position hpos) bq ("north") ("south")) 2)) :
    b.place_fence ("h") position =
      some (FenceResult.breaksFairPlay,
        (b.closePair (mkSlot position hpos) bq ("north") ("south")).openPair
          (mkSlot position hpos) bq ("north") ("south")) := by
  rw [place_fence_valid b (Or.inr rfl) hpos, pfid_h_some _ _ hn,
    ((fair_fail_spec _ (storedInB_closePair b _ bq _ _ hs)).1.mpr hr), Option.some_bind,
    if_pos rfl]

/-! ## Counterexample boards -/

/-- A board state satisfying the data-model invariants in which player 1
stands on its goal row (row 8) but every link of the board is closed:
player 1's cell is isolated. Player 2 stands on row 0, its own goal row. -/
def badBoard : Board :=
  { grid := fun q =>
      { north := none, south := none, east := none, west := none,
        has_pawn :=
          if q = ((0 : Fin 9), (8 : Fin 9)) then 1
          else if q = ((4 : Fin 9), (0 : Fin 9)) then 2 else 0,
        board_coord := (q.1.val, q.2.val) },
    player_1 := (0, 8), player_2 := (4, 0) }

/-- A board state in which player 1 stands at (0,8) — on its goal row — with
the east link of (0,8) already fenced, so that its only remaining open link
is the north one; all other links are as in the fresh board.  Player 2
stands at (4,0), on its own goal row. -/
def sealedBoard : Board :=
  { grid := fun q =>
      { north := (initTile q).north
        south := (initTile q).south
        east := if q = ((0 : Fin 9), (8 : Fin 9)) then none else (initTile q).east
        west := if q = ((1 : Fin 9), (8 : Fin 9)) then none else (initTile q).west
        has_pawn :=
          if q = ((0 : Fin 9), (8 : Fin 9)) then 1
          else if q = ((4 : Fin 9), (0 : Fin 9)) then 2 else 0
        board_coord := (q.1.val, q.2.val) },
    player_1 := (0, 8), player_2 := (4, 0) }

/-- The board obtained from `sealedBoard` by tentatively closing the north
link of (0,8) and the south link of (0,7), as `place_fence "h" (0,8)` does
before running the fair-play checks. -/
def sealedClosed : Board :=
  sealedBoard.closePair ((0 : Fin 9), (8 : Fin 9)) ((0 : Fin 9), (7 : Fin 9)) ("north") ("south")

/-! ## Claim C1 -/

/-- C1 counterexample: on `badBoard`, player 1's cell lies on the goal row,
so a (length-zero) path of open links from the cell to a goal-row cell
exists, yet `_fair_play(1)` returns `False` — the claimed equivalence
"returns true iff a path of open links to the goal row exists" is false at
this state. -/
theorem fair_play_goal_row_counterexample :
    badBoard.fair_play 1 = some false ∧ specHasRoute badBoard 1 ∧
      ¬ (badBoard.fair_play 1 = some true ↔ specHasRoute badBoard 1) := by
  have h2 : specHasRoute badBoard 1 := by
    refine ⟨badBoard.grid ((0 : Fin 9), (8 : Fin 9)), by decide,
      badBoard.grid ((0 : Fin 9), (8 : Fin 9)), Relation.ReflTransGen.refl, by decide⟩
  refine ⟨by decide, h2, fun hiff => ?_⟩
  have := hiff.mpr h2
  exact absurd this (by decide)

/-- C1 (amended): for every board state and every player p in {1,2}, the
fair-play reachability check returns true if and only if there is a path of
at least ONE open link from p's current cell to some cell whose row equals
p's goal row.  (The original claim also counted the length-zero path: that
fails when p's cell is isolated on its goal row, see the counterexample —
the search never tests the start cell itself, and an isolated start can
never be re-entered.) -/
theorem fair_play_true_iff_open_route (b : Board) (p : Int) (_hp : p = 1 ∨ p = 2) :
    b.fair_play p = some true ↔ hasRoute b p :=
  (b.fair_play_iff p).1

theorem fair_play_true_iff_open_route_witness :
    ((1 : Int) = 1 ∨ (1 : Int) = 2) ∧
      (initialBoard.fair_play 1 = some true ↔ hasRoute initialBoard 1) :=
  ⟨Or.inl rfl, fair_play_true_iff_open_route initialBoard 1 (Or.inl rfl)⟩

/-! ## Claim C2 -/

/-- C2 counterexample: on `sealedBoard`, placing the horizontal fence at
(0,8) reports "breaks the fair play rule", although in the tentatively
closed board both players still have a route of open links to their goal
rows in the sense of the claim (each stands on its goal row, a length-zero
path) — so "breaks the fair play rule iff either player has no route to its
goal row" is false at this input. -/
theorem place_fence_zero_length_counterexample :
    (sealedBoard.place_fence ("h") (0, 8)).map Prod.fst = some FenceResult.breaksFairPlay ∧
      specHasRoute sealedClosed 1 ∧ specHasRoute sealedClosed 2 := by
  refine ⟨by decide, ?_, ?_⟩
  · exact ⟨sealedClosed.grid ((0 : Fin 9), (8 : Fin 9)), by decide,
      sealedClosed.grid ((0 : Fin 9), (8 : Fin 9)), Relation.ReflTransGen.refl, by decide⟩
  · exact ⟨sealedClosed.grid ((4 : Fin 9), (0 : Fin 9)), by decide,
      sealedClosed.grid ((4 : Fin 9), (0 : Fin 9)), Relation.ReflTransGen.refl, by decide⟩

/-- C2 (amended): for a board whose stored player coordinates are in range:
any direction outside v/h or position outside the grid is rejected; for a
valid direction and in-range position, the call is rejected exactly when the
target cell's west (for v) resp. north (for h) link is already absent;
otherwise, with the closing link present and pointing at `bq`, the call
returns "breaks the fair play rule" with both sides reopened iff in the
tentatively closed board some player has no route of at least ONE open link
to its goal row, and returns placed with the closure retained iff both
players still have such a route.  (The original claim's route notion also
counted length-zero routes; see the counterexample.) -/
theorem place_fence_return_characterization (b : Board) (hs : storedInB b)
    (direction : String) (position : Int × Int) :
    (¬ (direction = "v" ∨ direction = "h") ∨ ¬ inB position →
      b.place_fence direction position = some (FenceResult.rejected, b)) ∧
    (∀ h : inB position,
      (direction = "v" →
        ((b.grid (mkSlot position h)).west = none →
          b.place_fence direction position = some (FenceResult.rejected, b)) ∧
        (∀ bq, (b.grid (mkSlot position h)).west = some bq →
          (b.place_fence direction position =
              some (FenceResult.breaksFairPlay,
                (b.closePair (mkSlot position h) bq ("west") ("east")).openPair
                  (mkSlot position h) bq ("west") ("east")) ↔
            ¬ (hasRoute (b.closePair (mkSlot position h) bq ("west") ("east")) 1 ∧
               hasRoute (b.closePair (mkSlot position h) bq ("west") ("east")) 2)) ∧
          (b.place_fence direction position =
              some (FenceResult.placed,
                b.closePair (mkSlot position h) bq ("west") ("east")) ↔
            (hasRoute (b.closePair (mkSlot position h) bq ("west") ("east")) 1 ∧
             hasRoute (b.closePair (mkSlot position h) bq ("west") ("east")) 2)))) ∧
      (direction = "h" →
        ((b.grid (mkSlot position h)).north = none →
          b.place_fence direction position = some (FenceResult.rejected, b)) ∧
        (∀ bq, (b.grid (mkSlot position h)).north = some bq →
          (b.place_fence direction position =
              some (FenceResult.breaksFairPlay,
                (b.closePair (mkSlot position h) bq ("north") ("south")).openPair
                  (mkSlot position h) bq ("north") ("south")) ↔
            ¬ (hasRoute (b.closePair (mkSlot position h) bq ("north") ("south")) 1 ∧
               hasRoute (b.closePair (mkSlot position h) bq ("north") ("south")) 2)) ∧
          (b.place_fence direction position =
              some (FenceResult.placed,
                b.closePair (mkSlot position h) bq ("north") ("south")) ↔
            (hasRoute (b.closePair (mkSlot position h) bq ("north") ("south")) 1 ∧
             hasRoute (b.closePair (mkSlot position h) bq ("north") ("south")) 2))))) := by
  refine ⟨place_fence_invalid b direction position, ?_⟩
  intro h
  constructor
  · intro hd
    subst hd
    constructor
    · intro hwn
      rw [place_fence_valid b (Or.inl rfl) h, pfid_v_none _ _ hwn]
    · intro bq hw
      by_cases hr : hasRoute (b.closePair (mkSlot position h) bq ("west") ("east")) 1 ∧
          hasRoute (b.closePair (mkSlot position h) bq ("west") ("east")) 2
      · have hres := place_fence_v_placed b hs h hw hr
        constructor
        · rw [hres]
          constructor
          · intro hc
            exact FenceResult.noConfusion (pair_eq_fst (Option.some_inj.mp hc))
          · intro hc; exact absurd hr hc
        · rw [hres]
          exact ⟨fun _ => hr, fun _ => rfl⟩
      · have hres := place_fence_v_breaks b hs h hw hr
        constructor
        · rw [hres]
          exact ⟨fun _ => hr, fun _ => rfl⟩
        · rw [hres]
          constructor
          · intro hc
            exact FenceResult.noConfusion (pair_eq_fst (Option.some_inj.mp hc))
          · intro hc; exact absurd hc hr
  · intro hd
    subst hd
    constructor
    · intro hnn
      rw [place_fence_valid b (Or.inr rfl) h, pfid_h_none _ _ hnn]
    · intro bq hn
      by_cases hr : hasRoute (b.closePair (mkSlot position h) bq ("north") ("south")) 1 ∧
          hasRoute (b.closePair (mkSlot position h) bq ("north") ("south")) 2
      · have hres := place_fence_h_placed b hs h hn hr
        constructor
        · rw [hres]
          constructor
          · intro hc
            exact FenceResult.noConfusion (pair_eq_fst (Option.some_inj.mp hc))
          · intro hc; exact absurd hr hc
        · rw [hres]
          exact ⟨fun _ => hr, fun _ => rfl⟩
      · have hres := place_fence_h_breaks b hs h hn hr
        constructor
        · rw [hres]
          exact ⟨fun _ => hr, fun _ => rfl⟩
        · rw [hres]
          constructor
          · intro hc
            exact FenceResult.noConfusion (pair_eq_fst (Option.some_inj.mp hc))
          · intro hc; exact absurd hc hr

theorem place_fence_return_characterization_witness :
    storedInB initialBoard ∧
      (¬ (("v" : String) = "v" ∨ ("v" : String) = "h") ∨ ¬ inB ((4 : Int), (4 : Int)) →
        initialBoard.place_fence ("v") (4, 4) = some (FenceResult.rejected, initialBoard)) :=
  ⟨by decide,
    (place_fence_return_characterization initialBoard (by decide) ("v") (4, 4)).1⟩

/-! ## Claim C7 -/

/-- C7: link symmetry (and links pointing only at true grid neighbours) is
an invariant: it holds of the initial board and of every board reached by
any sequence of `move_pawn` / `place_fence` calls. -/
theorem reachable_board_links_symmetric (b : Board) (h : Reachable b) : LinksWF b :=
  linksWF_of_reachable h

theorem reachable_board_links_symmetric_witness :
    Reachable initialBoard ∧ LinksWF initialBoard :=
  ⟨Reachable.init, reachable_board_links_symmetric initialBoard Reachable.init⟩

/-! ## Claim C3 -/

/-- C3: no partial mutation is observable.  A `place_fence` call that does
not report `placed` (rejected input, absent link, or fair-play rollback)
leaves every cell and both stored coordinates unchanged; a `move_pawn` call
that fails changes nothing, and a successful one produces exactly the
committed state (vacated cell cleared, target cell set, stored coordinate
updated, all in one step). -/
theorem rejected_calls_leave_board_unchanged (b : Board) (hwf : LinksWF b) :
    (∀ (direction : String) (position : Int × Int) (r : FenceResult) (b2 : Board),
      b.place_fence direction position = some (r, b2) → r ≠ FenceResult.placed →
        (∀ q, b2.grid q = b.grid q) ∧ b2.player_1 = b.player_1 ∧
          b2.player_2 = b.player_2) ∧
    (∀ (player : Int) (new_pos : Int × Int) (b2 : Board),
      b.move_pawn player new_pos = some (false, b2) →
        (∀ q, b2.grid q = b.grid q) ∧ b2.player_1 = b.player_1 ∧
          b2.player_2 = b.player_2) ∧
    (∀ (player : Int) (new_pos : Int × Int) (b2 : Board),
      b.move_pawn player new_pos = some (true, b2) →
        b2 = b.commitMove player new_pos) := by
  have triv : ∀ b2 : Board, b = b2 →
      (∀ q, b2.grid q = b.grid q) ∧ b2.player_1 = b.player_1 ∧ b2.player_2 = b.player_2 := by
    intro b2 hb
    subst hb
    exact ⟨fun _ => rfl, rfl, rfl⟩
  refine ⟨?_, ?_, ?_⟩
  · intro direction position r b2 hpf hr
    by_cases hval : (direction = "v" ∨ direction = "h") ∧ inB position
    · obtain ⟨hd, hpos⟩ := hval
      rw [place_fence_valid b hd hpos] at hpf
      rcases hd with rfl | rfl
      · cases hw : (b.grid (mkSlot position hpos)).west with
        | none =>
          rw [pfid_v_none _ _ hw] at hpf
          exact triv b2 (pair_eq_snd (Option.some_inj.mp hpf))
        | some bq =>
          rw [pfid_v_some _ _ hw] at hpf
          obtain ⟨hl, he⟩ := west_link_facts hwf hw
          cases hff : (b.closePair (mkSlot position hpos) bq ("west") ("east")).fair_fail with
          | none =>
            rw [hff, Option.none_bind] at hpf
            exact Option.noConfusion hpf
          | some fail =>
            rw [hff, Option.some_bind] at hpf
            cases fail with
            | true =>
              rw [if_pos rfl] at hpf
              have hb := pair_eq_snd (Option.some_inj.mp hpf)
              rw [rollback_v b _ bq (leftOf_ne hl) hw he] at hb
              exact triv b2 hb
            | false =>
              rw [if_neg (by decide)] at hpf
              exact absurd (pair_eq_fst (Option.some_inj.mp hpf)).symm hr
      · cases hn : (b.grid (mkSlot position hpos)).north with
        | none =>
          rw [pfid_h_none _ _ hn] at hpf
          exact triv b2 (pair_eq_snd (Option.some_inj.mp hpf))
        | some bq =>
          rw [pfid_h_some _ _ hn] at hpf
          obtain ⟨hl, hso⟩ := north_link_facts hwf hn
          cases hff : (b.closePair (mkSlot position hpos) bq ("north") ("south")).fair_fail with
          | none =>
            rw [hff, Option.none_bind] at hpf
            exact Option.noConfusion hpf
          | some fail =>
            rw [hff, Option.some_bind] at hpf
            cases fail with
            | true =>
              rw [if_pos rfl] at hpf
              have hb := pair_eq_snd (Option.some_inj.mp hpf)
              rw [rollback_h b _ bq (upOf_ne hl) hn hso] at hb
              exact triv b2 hb
            | false =>
              rw [if_neg (by decide)] at hpf
              exact absurd (pair_eq_fst (Option.some_inj.mp hpf)).symm hr
    · rw [place_fence_invalid b direction position (not_and_or.mp hval)] at hpf
      exact triv b2 (pair_eq_snd (Option.some_inj.mp hpf))
  · intro player new_pos b2 hmv
    by_cases hin : inB new_pos
    · by_cases hocc : (b.grid (mkSlot new_pos hin)).has_pawn = 0
      · by_cases hcur : inB (storedPos b player)
        · rw [move_pawn_open b player hin hocc (b.tileRef_pos hcur)] at hmv
          by_cases hall : b.move_allowed player new_pos (b.grid (mkSlot _ hcur)) = true
          · rw [if_pos hall] at hmv
            exact Bool.noConfusion (pair_eq_fst (Option.some_inj.mp hmv))
          · rw [if_neg hall] at hmv
            exact triv b2 (pair_eq_snd (Option.some_inj.mp hmv))
        · rw [move_pawn_raise b player hin hocc hcur] at hmv
          exact Option.noConfusion hmv
      · rw [move_pawn_occupied b player hin hocc] at hmv
        exact triv b2 (pair_eq_snd (Option.some_inj.mp hmv))
    · rw [move_pawn_oob b player hin] at hmv
      exact triv b2 (pair_eq_snd (Option.some_inj.mp hmv))
  · intro player new_pos b2 hmv
    by_cases hin : inB new_pos
    · by_cases hocc : (b.grid (mkSlot new_pos hin)).has_pawn = 0
      · by_cases hcur : inB (storedPos b player)
        · rw [move_pawn_open b player hin hocc (b.tileRef_pos hcur)] at hmv
          by_cases hall : b.move_allowed player new_pos (b.grid (mkSlot _ hcur)) = true
          · rw [if_pos hall] at hmv
            exact (pair_eq_snd (Option.some_inj.mp hmv)).symm
          · rw [if_neg hall] at hmv
            exact Bool.noConfusion (pair_eq_fst (Option.some_inj.mp hmv))
        · rw [move_pawn_raise b player hin hocc hcur] at hmv
          exact Option.noConfusion hmv
      · rw [move_pawn_occupied b player hin hocc] at hmv
        exact Bool.noConfusion (pair_eq_fst (Option.some_inj.mp hmv))
    · rw [move_pawn_oob b player hin] at hmv
      exact Bool.noConfusion (pair_eq_fst (Option.some_inj.mp hmv))

theorem rejected_calls_leave_board_unchanged_witness :
    (∀ q, initialBoard.grid q = initialBoard.grid q) ∧
      initialBoard.player_1 = initialBoard.player_1 ∧
      initialBoard.player_2 = initialBoard.player_2 :=
  (rejected_calls_leave_board_unchanged initialBoard linksWF_initial).1 ("x")
    ((0 : Int), (0 : Int)) FenceResult.rejected initialBoard
    (place_fence_invalid initialBoard ("x") ((0 : Int), (0 : Int)) (Or.inl (by decide)))
    (by decide)

/-! ## Claim C9 -/

theorem storedPos_inB {b : Board} (hs : storedInB b) (player : Int) :
    inB (storedPos b player) := by
  unfold storedPos
  by_cases hp : player = 1
  · rw [if_pos hp]; exact hs.1
  · rw [if_neg hp]; exact hs.2

/-- C9: with in-range stored player coordinates (as the data model
guarantees), `move_pawn` and `place_fence` are total for every integer
player, direction string and coordinate pair — no grid access outside
[0,8] x [0,8] ever happens (a `none` result would model one) — and
out-of-range or occupied targets and invalid fence inputs are reported as
plain failure values with the board untouched. -/
theorem operations_never_raise (b : Board) (hs : storedInB b) (player : Int)
    (new_pos : Int × Int) (direction : String) (position : Int × Int) :
    (b.move_pawn player new_pos).isSome ∧
    (b.place_fence direction position).isSome ∧
    (¬ inB new_pos → b.move_pawn player new_pos = some (false, b)) ∧
    (∀ h : inB new_pos, (b.grid (mkSlot new_pos h)).has_pawn ≠ 0 →
      b.move_pawn player new_pos = some (false, b)) ∧
    ((¬ (direction = "v" ∨ direction = "h") ∨ ¬ inB position) →
      b.place_fence direction position = some (FenceResult.rejected, b)) := by
  refine ⟨?_, ?_, move_pawn_oob b player, fun h => move_pawn_occupied b player h,
    place_fence_invalid b direction position⟩
  · by_cases hin : inB new_pos
    · by_cases hocc : (b.grid (mkSlot new_pos hin)).has_pawn = 0
      · rw [move_pawn_open b player hin hocc (b.tileRef_pos (storedPos_inB hs player))]
        by_cases hall : b.move_allowed player new_pos
            (b.grid (mkSlot _ (storedPos_inB hs player))) = true
        · rw [if_pos hall]; rfl
        · rw [if_neg hall]; rfl
      · rw [move_pawn_occupied b player hin hocc]; rfl
    · rw [move_pawn_oob b player hin]; rfl
  · by_cases hval : (direction = "v" ∨ direction = "h") ∧ inB position
    · obtain ⟨hd, hpos⟩ := hval
      rcases hd with rfl | rfl
      · cases hw : (b.grid (mkSlot position hpos)).west with
        | none => rw [place_fence_valid b (Or.inl rfl) hpos, pfid_v_none _ _ hw]; rfl
        | some bq =>
          by_cases hr : hasRoute (b.closePair (mkSlot position hpos) bq ("west") ("east")) 1 ∧
              hasRoute (b.closePair (mkSlot position hpos) bq ("west") ("east")) 2
          · rw [place_fence_v_placed b hs hpos hw hr]; rfl
          · rw [place_fence_v_breaks b hs hpos hw hr]; rfl
      · cases hn : (b.grid (mkSlot position hpos)).north with
        | none => rw [place_fence_valid b (Or.inr rfl) hpos, pfid_h_none _ _ hn]; rfl
        | some bq =>
          by_cases hr : hasRoute (b.closePair (mkSlot position hpos) bq ("north") ("south")) 1 ∧
              hasRoute (b.closePair (mkSlot position hpos) bq ("north") ("south")) 2
          · rw [place_fence_h_placed b hs hpos hn hr]; rfl
          · rw [place_fence_h_breaks b hs hpos hn hr]; rfl
    · rw [place_fence_invalid b direction position (not_and_or.mp hval)]; rfl

theorem operations_never_raise_witness :
    storedInB initialBoard ∧ (initialBoard.move_pawn 5 ((9 : Int), (9 : Int))).isSome :=
  ⟨by decide,
    (operations_never_raise initialBoard (by decide) 5 ((9 : Int), (9 : Int)) ("z")
      ((-3 : Int), (11 : Int))).1⟩

/-! ## Claim C10 -/

/-- C10: a `place_fence` call that returns placed changes exactly two link
fields — the target cell's west link and its west neighbour's east link for
"v", the target cell's north link and its north neighbour's south link for
"h" (both previously open, both set to absent) — and nothing else: every
other cell, every other field of the two affected cells (including their
occupant markers), and both stored player coordinates are unchanged. -/
theorem place_fence_placed_frame (b : Board) (hwf : LinksWF b) (direction : String)
    (position : Int × Int) (b2 : Board)
    (hpf : b.place_fence direction position = some (FenceResult.placed, b2)) :
    b2.player_1 = b.player_1 ∧ b2.player_2 = b.player_2 ∧
    (direction = "v" → ∃ h : inB position, ∃ bq,
      leftOf (mkSlot position h) = some bq ∧
      (b.grid (mkSlot position h)).west = some bq ∧
      b2.grid (mkSlot position h) = { b.grid (mkSlot position h) with west := none } ∧
      b2.grid bq = { b.grid bq with east := none } ∧
      (∀ z, z ≠ mkSlot position h → z ≠ bq → b2.grid z = b.grid z)) ∧
    (direction = "h" → ∃ h : inB position, ∃ bq,
      upOf (mkSlot position h) = some bq ∧
      (b.grid (mkSlot position h)).north = some bq ∧
      b2.grid (mkSlot position h) = { b.grid (mkSlot position h) with north := none } ∧
      b2.grid bq = { b.grid bq with south := none } ∧
      (∀ z, z ≠ mkSlot position h → z ≠ bq → b2.grid z = b.grid z)) := by
  by_cases hval : (direction = "v" ∨ direction = "h") ∧ inB position
  · obtain ⟨hd, hpos⟩ := hval
    rcases hd with rfl | rfl
    · cases hw : (b.grid (mkSlot position hpos)).west with
      | none =>
        rw [place_fence_valid b (Or.inl rfl) hpos, pfid_v_none _ _ hw] at hpf
        exact FenceResult.noConfusion (pair_eq_fst (Option.some_inj.mp hpf))
      | some bq =>
        obtain ⟨hl, he⟩ := west_link_facts hwf hw
        have hne := leftOf_ne hl
        rw [place_fence_valid b (Or.inl rfl) hpos, pfid_v_some _ _ hw] at hpf
        cases hff : (b.closePair (mkSlot position hpos) bq ("west") ("east")).fair_fail with
        | none =>
          rw [hff, Option.none_bind] at hpf
          exact Option.noConfusion hpf
        | some fail =>
          rw [hff, Option.some_bind] at hpf
          cases fail with
          | true =>
            rw [if_pos rfl] at hpf
            exact FenceResult.noConfusion (pair_eq_fst (Option.some_inj.mp hpf))
          | false =>
            rw [if_neg (by decide)] at hpf
            have hb2 := (pair_eq_snd (Option.some_inj.mp hpf)).symm
            subst hb2
            refine ⟨(closePair_players b _ bq _ _).1, (closePair_players b _ bq _ _).2,
              fun _ => ⟨hpos, bq, hl, hw, ?_, ?_, ?_⟩, fun habs => absurd habs (by decide)⟩
            · rw [closePair_v_grid b _ bq hne,
                if_neg (fun hc => hne hc.symm), if_pos rfl]
            · rw [closePair_v_grid b _ bq hne, if_pos rfl]
            · intro z hz1 hz2
              rw [closePair_v_grid b _ bq hne, if_neg hz2, if_neg hz1]
    · cases hn : (b.grid (mkSlot position hpos)).north with
      | none =>
        rw [place_fence_valid b (Or.inr rfl) hpos, pfid_h_none _ _ hn] at hpf
        exact FenceResult.noConfusion (pair_eq_fst (Option.some_inj.mp hpf))
      | some bq =>
        obtain ⟨hl, hso⟩ := north_link_facts hwf hn
        have hne := upOf_ne hl
        rw [place_fence_valid b (Or.inr rfl) hpos, pfid_h_some _ _ hn] at hpf
        cases hff : (b.closePair (mkSlot position hpos) bq ("north") ("south")).fair_fail with
        | none =>
          rw [hff, Option.none_bind] at hpf
          exact Option.noConfusion hpf
        | some fail =>
          rw [hff, Option.some_bind] at hpf
          cases fail with
          | true =>
            rw [if_pos rfl] at hpf
            exact FenceResult.noConfusion (pair_eq_fst (Option.some_inj.mp hpf))
          | false =>
            rw [if_neg (by decide)] at hpf
            have hb2 := (pair_eq_snd (Option.some_inj.mp hpf)).symm
            subst hb2
            refine ⟨(closePair_players b _ bq _ _).1, (closePair_players b _ bq _ _).2,
              fun habs => absurd habs (by decide),
              fun _ => ⟨hpos, bq, hl, hn, ?_, ?_, ?_⟩⟩
            · rw [closePair_h_grid b _ bq hne,
                if_neg (fun hc => hne hc.symm), if_pos rfl]
            · rw [closePair_h_grid b _ bq hne, if_pos rfl]
            · intro z hz1 hz2
              rw [closePair_h_grid b _ bq hne, if_neg hz2, if_neg hz1]
  · rw [place_fence_invalid b direction position (not_and_or.mp hval)] at hpf
    exact FenceResult.noConfusion (pair_eq_fst (Option.some_inj.mp hpf))

/-- The board obtained from the fresh board by placing the vertical fence at
(4,4): the west link of (4,4) and the east link of (3,4) are closed. -/
def wClosed : Board :=
  initialBoard.closePair ((4 : Fin 9), (4 : Fin 9)) ((3 : Fin 9), (4 : Fin 9)) ("west") ("east")

theorem wClosed_route_1 : hasRoute wClosed 1 := by
  refine ⟨wClosed.grid ((4 : Fin 9), (0 : Fin 9)), by decide,
    wClosed.grid ((4 : Fin 9), (8 : Fin 9)), ?_, by decide⟩
  exact Relation.TransGen.head (b := wClosed.grid ((4 : Fin 9), (1 : Fin 9))) (by decide)
    (Relation.TransGen.head (b := wClosed.grid ((4 : Fin 9), (2 : Fin 9))) (by decide)
      (Relation.TransGen.head (b := wClosed.grid ((4 : Fin 9), (3 : Fin 9))) (by decide)
        (Relation.TransGen.head (b := wClosed.grid ((4 : Fin 9), (4 : Fin 9))) (by decide)
          (Relation.TransGen.head (b := wClosed.grid ((4 : Fin 9), (5 : Fin 9))) (by decide)
            (Relation.TransGen.head (b := wClosed.grid ((4 : Fin 9), (6 : Fin 9))) (by decide)
              (Relation.TransGen.head (b := wClosed.grid ((4 : Fin 9), (7 : Fin 9))) (by decide)
                (Relation.TransGen.single (by decide))))))))

theorem wClosed_route_2 : hasRoute wClosed 2 := by
  refine ⟨wClosed.grid ((4 : Fin 9), (8 : Fin 9)), by decide,
    wClosed.grid ((4 : Fin 9), (0 : Fin 9)), ?_, by decide⟩
  exact Relation.TransGen.head (b := wClosed.grid ((4 : Fin 9), (7 : Fin 9))) (by decide)
    (Relation.TransGen.head (b := wClosed.grid ((4 : Fin 9), (6 : Fin 9))) (by decide)
      (Relation.TransGen.head (b := wClosed.grid ((4 : Fin 9), (5 : Fin 9))) (by decide)
        (Relation.TransGen.head (b := wClosed.grid ((4 : Fin 9), (4 : Fin 9))) (by decide)
          (Relation.TransGen.head (b := wClosed.grid ((4 : Fin 9), (3 : Fin 9))) (by decide)
            (Relation.TransGen.head (b := wClosed.grid ((4 : Fin 9), (2 : Fin 9))) (by decide)
              (Relation.TransGen.head (b := wClosed.grid ((4 : Fin 9), (1 : Fin 9))) (by decide)
                (Relation.TransGen.single (by decide))))))))

theorem place_fence_placed_frame_witness :
    wClosed.player_1 = initialBoard.player_1 ∧ wClosed.player_2 = initialBoard.player_2 ∧
    (("v" : String) = "v" → ∃ h : inB ((4 : Int), (4 : Int)), ∃ bq,
      leftOf (mkSlot ((4 : Int), (4 : Int)) h) = some bq ∧
      (initialBoard.grid (mkSlot ((4 : Int), (4 : Int)) h)).west = some bq ∧
      wClosed.grid (mkSlot ((4 : Int), (4 : Int)) h) =
        { initialBoard.grid (mkSlot ((4 : Int), (4 : Int)) h) with west := none } ∧
      wClosed.grid bq = { initialBoard.grid bq with east := none } ∧
      (∀ z, z ≠ mkSlot ((4 : Int), (4 : Int)) h → z ≠ bq →
        wClosed.grid z = initialBoard.grid z)) ∧
    (("v" : String) = "h" → ∃ h : inB ((4 : Int), (4 : Int)), ∃ bq,
      upOf (mkSlot ((4 : Int), (4 : Int)) h) = some bq ∧
      (initialBoard.grid (mkSlot ((4 : Int), (4 : Int)) h)).north = some bq ∧
      wClosed.grid (mkSlot ((4 : Int), (4 : Int)) h) =
        { initialBoard.grid (mkSlot ((4 : Int), (4 : Int)) h) with north := none } ∧
      wClosed.grid bq = { initialBoard.grid bq with south := none } ∧
      (∀ z, z ≠ mkSlot ((4 : Int), (4 : Int)) h → z ≠ bq →
        wClosed.grid z = initialBoard.grid z)) :=
  place_fence_placed_frame initialBoard linksWF_initial ("v") ((4 : Int), (4 : Int)) wClosed
    (place_fence_v_placed initialBoard (by decide) (by decide) (by decide)
      ⟨wClosed_route_1, wClosed_route_2⟩)

/-! ## Claim C6 -/

/-- C6: for an in-bounds, unoccupied target whose displacement from the
player's current cell has magnitude 1 on exactly one axis and 0 on the
other, `move_pawn` succeeds iff the current cell's link in that direction
is open. -/
theorem regular_move_characterization (b : Board) (player : Int)
    (_hp : player = 1 ∨ player = 2) (new_pos : Int × Int) (hin : inB new_pos)
    (hemp : (b.grid (mkSlot new_pos hin)).has_pawn = 0)
    (hcur : inB (storedPos b player))
    (hd : ((new_pos.1 - (storedPos b player).1).natAbs = 1 ∧
            new_pos.2 - (storedPos b player).2 = 0) ∨
          (new_pos.1 - (storedPos b player).1 = 0 ∧
            (new_pos.2 - (storedPos b player).2).natAbs = 1)) :
    ((b.move_pawn player new_pos).map Prod.fst = some true ↔
      ((b.grid (mkSlot (storedPos b player) hcur)).get_direction
        (new_pos.1 - (storedPos b player).1, new_pos.2 - (storedPos b player).2)).isSome) := by
  rw [move_pawn_open b player hin hemp (b.tileRef_pos hcur)]
  have hjump : b.can_jump_pawn (b.grid (mkSlot (storedPos b player) hcur))
      (new_pos.2 - (storedPos b player).2) (new_pos.1 - (storedPos b player).1) = false := by
    unfold Board.can_jump_pawn
    rw [if_neg]
    rcases hd with ⟨h1, h2⟩ | ⟨h1, h2⟩ <;> omega
  have hdiag : b.can_move_diagonally (b.grid (mkSlot (storedPos b player) hcur))
      (new_pos.2 - (storedPos b player).2) (new_pos.1 - (storedPos b player).1) = false := by
    unfold Board.can_move_diagonally
    rw [if_neg]
    rcases hd with ⟨h1, h2⟩ | ⟨h1, h2⟩ <;> omega
  have hreg : b.can_move_regularly (b.grid (mkSlot (storedPos b player) hcur))
      (new_pos.2 - (storedPos b player).2) (new_pos.1 - (storedPos b player).1) =
      ((b.grid (mkSlot (storedPos b player) hcur)).get_direction
        (new_pos.1 - (storedPos b player).1, new_pos.2 - (storedPos b player).2)).isSome := by
    unfold Board.can_move_regularly
    rw [if_pos]
    rcases hd with ⟨h1, h2⟩ | ⟨h1, h2⟩ <;> constructor <;> omega
  have hall : b.move_allowed player new_pos (b.grid (mkSlot (storedPos b player) hcur)) =
      ((b.grid (mkSlot (storedPos b player) hcur)).get_direction
        (new_pos.1 - (storedPos b player).1, new_pos.2 - (storedPos b player).2)).isSome := by
    unfold Board.move_allowed moveDelta
    rw [hjump, hdiag, hreg, Bool.or_false, Bool.or_false]
  rw [hall]
  cases hgd : ((b.grid (mkSlot (storedPos b player) hcur)).get_direction
      (new_pos.1 - (storedPos b player).1, new_pos.2 - (storedPos b player).2)).isSome with
  | true =>
    rw [if_pos rfl]
    simp
  | false =>
    rw [if_neg (by simp)]
    simp

theorem regular_move_characterization_witness :
    ((1 : Int) = 1 ∨ (1 : Int) = 2) ∧ inB ((4 : Int), (1 : Int)) ∧
      ((initialBoard.move_pawn 1 ((4 : Int), (1 : Int))).map Prod.fst = some true ↔
        ((initialBoard.grid (mkSlot (storedPos initialBoard 1) (by decide))).get_direction
          (((4 : Int), (1 : Int)).1 - (storedPos initialBoard 1).1,
            ((4 : Int), (1 : Int)).2 - (storedPos initialBoard 1).2)).isSome) :=
  ⟨Or.inl rfl, by decide,
    regular_move_characterization initialBoard 1 (Or.inl rfl) ((4 : Int), (1 : Int))
      (by decide) (by decide) (by decide) (Or.inr ⟨by decide, by decide⟩)⟩

/-! ## Claim C4 -/

theorem east_link_facts {b : Board} (hwf : LinksWF b) {q bq : Slot}
    (he : (b.grid q).east = some bq) :
    rightOf q = some bq ∧ (b.grid bq).west = some q := by
  have h := (hwf q).2.2.1
  cases hl : rightOf q with
  | none =>
    rw [hl, pairOK_none] at h
    rw [h] at he
    exact Option.noConfusion he
  | some u =>
    rw [hl, pairOK_some] at h
    rcases h with ⟨h1, _⟩ | ⟨h1, h2⟩
    · rw [h1] at he; exact Option.noConfusion he
    · rw [h1] at he
      have hub := Option.some_inj.mp he
      rw [hub] at h2
      exact ⟨by rw [hub], h2⟩

theorem south_link_facts {b : Board} (hwf : LinksWF b) {q bq : Slot}
    (hs : (b.grid q).south = some bq) :
    downOf q = some bq ∧ (b.grid bq).north = some q := by
  have h := (hwf q).2.1
  cases hl : downOf q with
  | none =>
    rw [hl, pairOK_none] at h
    rw [h] at hs
    exact Option.noConfusion hs
  | some u =>
    rw [hl, pairOK_some] at h
    rcases h with ⟨h1, _⟩ | ⟨h1, h2⟩
    · rw [h1] at hs; exact Option.noConfusion hs
    · rw [h1] at hs
      have hub := Option.some_inj.mp hs
      rw [hub] at h2
      exact ⟨by rw [hub], h2⟩

theorem rightOf_mkSlot {p m : Int × Int} (hp : inB p) (hm : inB m)
    (h1 : m.1 = p.1 + 1) (h2 : m.2 = p.2) :
    rightOf (mkSlot p hp) = some (mkSlot m hm) := by
  unfold inB at hp hm
  unfold rightOf mkSlot
  rw [dif_neg (by simp; omega)]
  simp only [Option.some_inj]
  refine Prod.ext ?_ ?_ <;> apply Fin.ext <;> simp <;> omega

theorem leftOf_mkSlot {p m : Int × Int} (hp : inB p) (hm : inB m)
    (h1 : m.1 = p.1 - 1) (h2 : m.2 = p.2) :
    leftOf (mkSlot p hp) = some (mkSlot m hm) := by
  unfold inB at hp hm
  unfold leftOf mkSlot
  rw [dif_neg (by simp; omega)]
  simp only [Option.some_inj]
  refine Prod.ext ?_ ?_ <;> apply Fin.ext <;> simp <;> omega

theorem downOf_mkSlot {p m : Int × Int} (hp : inB p) (hm : inB m)
    (h1 : m.1 = p.1) (h2 : m.2 = p.2 + 1) :
    downOf (mkSlot p hp) = some (mkSlot m hm) := by
  unfold inB at hp hm
  unfold downOf mkSlot
  rw [dif_neg (by simp; omega)]
  simp only [Option.some_inj]
  refine Prod.ext ?_ ?_ <;> apply Fin.ext <;> simp <;> omega

theorem upOf_mkSlot {p m : Int × Int} (hp : inB p) (hm : inB m)
    (h1 : m.1 = p.1) (h2 : m.2 = p.2 - 1) :
    upOf (mkSlot p hp) = some (mkSlot m hm) := by
  unfold inB at hp hm
  unfold upOf mkSlot
  rw [dif_neg (by simp; omega)]
  simp only [Option.some_inj]
  refine Prod.ext ?_ ?_ <;> apply Fin.ext <;> simp <;> omega

theorem jump_main (b : Board) (player : Int) {new_pos mid : Int × Int} (hin : inB new_pos)
    (hemp : (b.grid (mkSlot new_pos hin)).has_pawn = 0)
    (hcur : inB (storedPos b player)) (hmB : inB mid)
    (hd : ((new_pos.1 - (storedPos b player).1).natAbs = 2 ∧
            new_pos.2 - (storedPos b player).2 = 0) ∨
          (new_pos.1 - (storedPos b player).1 = 0 ∧
            (new_pos.2 - (storedPos b player).2).natAbs = 2))
    (hlink : ∀ nq, (b.grid (mkSlot (storedPos b player) hcur)).get_direction
        (new_pos.1 - (storedPos b player).1, new_pos.2 - (storedPos b player).2) = some nq →
        nq = mkSlot mid hmB) :
    ((b.move_pawn player new_pos).map Prod.fst = some true ↔
      (((b.grid (mkSlot (storedPos b player) hcur)).get_direction
          (new_pos.1 - (storedPos b player).1,
            new_pos.2 - (storedPos b player).2)).isSome ∧
        (b.grid (mkSlot mid hmB)).has_pawn ≠ 0 ∧
        ((b.grid (mkSlot mid hmB)).get_direction
          (new_pos.1 - (storedPos b player).1,
            new_pos.2 - (storedPos b player).2)).isSome)) := by
  rw [move_pawn_open b player hin hemp (b.tileRef_pos hcur)]
  have hreg : b.can_move_regularly (b.grid (mkSlot (storedPos b player) hcur))
      (new_pos.2 - (storedPos b player).2) (new_pos.1 - (storedPos b player).1) = false := by
    unfold Board.can_move_regularly
    rw [if_neg]
    rcases hd with ⟨h1, h2⟩ | ⟨h1, h2⟩ <;> omega
  have hdiag : b.can_move_diagonally (b.grid (mkSlot (storedPos b player) hcur))
      (new_pos.2 - (storedPos b player).2) (new_pos.1 - (storedPos b player).1) = false := by
    unfold Board.can_move_diagonally
    rw [if_neg]
    rcases hd with ⟨h1, h2⟩ | ⟨h1, h2⟩ <;> omega
  have hall : b.move_allowed player new_pos (b.grid (mkSlot (storedPos b player) hcur)) =
      b.can_jump_pawn (b.grid (mkSlot (storedPos b player) hcur))
        (new_pos.2 - (storedPos b player).2) (new_pos.1 - (storedPos b player).1) := by
    unfold Board.move_allowed moveDelta
    rw [hreg, hdiag, Bool.false_or, Bool.or_false]
  rw [hall]
  have hcond : ((new_pos.2 - (storedPos b player).2).natAbs = 2 ∨
      (new_pos.1 - (storedPos b player).1).natAbs = 2) ∧
      ((new_pos.2 - (storedPos b player).2).natAbs = 0 ∨
        (new_pos.1 - (storedPos b player).1).natAbs = 0) := by
    rcases hd with ⟨h1, h2⟩ | ⟨h1, h2⟩ <;> exact ⟨by omega, by omega⟩
  cases hgd : (b.grid (mkSlot (storedPos b player) hcur)).get_direction
      (new_pos.1 - (storedPos b player).1, new_pos.2 - (storedPos b player).2) with
  | none =>
    have hj : b.can_jump_pawn (b.grid (mkSlot (storedPos b player) hcur))
        (new_pos.2 - (storedPos b player).2) (new_pos.1 - (storedPos b player).1) = false := by
      unfold Board.can_jump_pawn
      rw [if_pos hcond, hgd]
    rw [hj, if_neg (by simp)]
    simp [hgd]
  | some nq =>
    have hnq := hlink nq hgd
    subst hnq
    have hj : b.can_jump_pawn (b.grid (mkSlot (storedPos b player) hcur))
        (new_pos.2 - (storedPos b player).2) (new_pos.1 - (storedPos b player).1) =
        (if (b.grid (mkSlot mid hmB)).has_pawn ≠ 0 then
          ((b.grid (mkSlot mid hmB)).get_direction
            (new_pos.1 - (storedPos b player).1,
              new_pos.2 - (storedPos b player).2)).isSome
         else false) := by
      unfold Board.can_jump_pawn
      rw [if_pos hcond, hgd]
    rw [hj]
    by_cases hpw : (b.grid (mkSlot mid hmB)).has_pawn = 0
    · rw [if_neg (not_not_intro hpw), if_neg (by simp)]
      simp [hpw]
    · rw [if_pos hpw]
      cases hgd2 : ((b.grid (mkSlot mid hmB)).get_direction
          (new_pos.1 - (storedPos b player).1, new_pos.2 - (storedPos b player).2)).isSome with
      | true =>
        rw [if_pos rfl]
        simp [hpw, hgd2]
      | false =>
        rw [if_neg (by simp)]
        simp [hpw, hgd2]

/-- C4: for an in-bounds, unoccupied target two cells away on exactly one
axis, `move_pawn` succeeds iff the current cell's link one step along that
axis is open, the cell there (the middle cell `mid`) holds a pawn, and the
middle cell's link one further step in the same direction is open. -/
theorem jump_move_characterization (b : Board) (hwf : LinksWF b) (player : Int)
    (_hp : player = 1 ∨ player = 2) (new_pos mid : Int × Int) (hin : inB new_pos)
    (hemp : (b.grid (mkSlot new_pos hin)).has_pawn = 0)
    (hcur : inB (storedPos b player)) (hmB : inB mid)
    (hm1 : new_pos.1 + (storedPos b player).1 = 2 * mid.1)
    (hm2 : new_pos.2 + (storedPos b player).2 = 2 * mid.2)
    (hd : ((new_pos.1 - (storedPos b player).1).natAbs = 2 ∧
            new_pos.2 - (storedPos b player).2 = 0) ∨
          (new_pos.1 - (storedPos b player).1 = 0 ∧
            (new_pos.2 - (storedPos b player).2).natAbs = 2)) :
    ((b.move_pawn player new_pos).map Prod.fst = some true ↔
      (((b.grid (mkSlot (storedPos b player) hcur)).get_direction
          (new_pos.1 - (storedPos b player).1,
            new_pos.2 - (storedPos b player).2)).isSome ∧
        (b.grid (mkSlot mid hmB)).has_pawn ≠ 0 ∧
        ((b.grid (mkSlot mid hmB)).get_direction
          (new_pos.1 - (storedPos b player).1,
            new_pos.2 - (storedPos b player).2)).isSome)) := by
  refine jump_main b player hin hemp hcur hmB hd ?_
  intro nq hgd
  rcases hd with ⟨h1, h2⟩ | ⟨h1, h2⟩
  · by_cases hsign : new_pos.1 - (storedPos b player).1 = 2
    · rw [hsign, h2] at hgd
      have hgd2 : (b.grid (mkSlot (storedPos b player) hcur)).east = some nq := hgd
      have hr := (east_link_facts hwf hgd2).1
      rw [rightOf_mkSlot hcur hmB (by omega) (by omega)] at hr
      exact (Option.some_inj.mp hr).symm
    · have hsign2 : new_pos.1 - (storedPos b player).1 = -2 := by omega
      rw [hsign2, h2] at hgd
      have hgd2 : (b.grid (mkSlot (storedPos b player) hcur)).west = some nq := hgd
      have hr := (west_link_facts hwf hgd2).1
      rw [leftOf_mkSlot hcur hmB (by omega) (by omega)] at hr
      exact (Option.some_inj.mp hr).symm
  · by_cases hsign : new_pos.2 - (storedPos b player).2 = 2
    · rw [hsign, h1] at hgd
      have hgd2 : (b.grid (mkSlot (storedPos b player) hcur)).south = some nq := hgd
      have hr := (south_link_facts hwf hgd2).1
      rw [downOf_mkSlot hcur hmB (by omega) (by omega)] at hr
      exact (Option.some_inj.mp hr).symm
    · have hsign2 : new_pos.2 - (storedPos b player).2 = -2 := by omega
      rw [hsign2, h1] at hgd
      have hgd2 : (b.grid (mkSlot (storedPos b player) hcur)).north = some nq := hgd
      have hr := (north_link_facts hwf hgd2).1
      rw [upOf_mkSlot hcur hmB (by omega) (by omega)] at hr
      exact (Option.some_inj.mp hr).symm

/-- A board with player 1 at (4,4) and player 2 at (4,5), all links open:
the jump scenario of the specification. -/
def jumpBoard : Board :=
  { grid := fun q =>
      { initTile q with has_pawn :=
          if q = ((4 : Fin 9), (4 : Fin 9)) then 1
          else if q = ((4 : Fin 9), (5 : Fin 9)) then 2 else 0 },
    player_1 := (4, 4), player_2 := (4, 5) }

theorem jumpB_cur_inB : inB (storedPos jumpBoard 1) := by decide

theorem jumpB_mid_inB : inB ((4 : Int), (5 : Int)) := by decide

theorem jumpB_new_inB : inB ((4 : Int), (6 : Int)) := by decide

theorem jump_move_characterization_witness :
    LinksWF jumpBoard ∧
      ((jumpBoard.move_pawn 1 ((4 : Int), (6 : Int))).map Prod.fst = some true ↔
        (((jumpBoard.grid (mkSlot (storedPos jumpBoard 1) jumpB_cur_inB)).get_direction
            (((4 : Int), (6 : Int)).1 - (storedPos jumpBoard 1).1,
              ((4 : Int), (6 : Int)).2 - (storedPos jumpBoard 1).2)).isSome ∧
          (jumpBoard.grid (mkSlot ((4 : Int), (5 : Int)) jumpB_mid_inB)).has_pawn ≠ 0 ∧
          ((jumpBoard.grid (mkSlot ((4 : Int), (5 : Int)) jumpB_mid_inB)).get_direction
            (((4 : Int), (6 : Int)).1 - (storedPos jumpBoard 1).1,
              ((4 : Int), (6 : Int)).2 - (storedPos jumpBoard 1).2)).isSome)) :=
  ⟨by decide,
    jump_move_characterization jumpBoard (by decide) 1 (Or.inl rfl) ((4 : Int), (6 : Int))
      ((4 : Int), (5 : Int)) jumpB_new_inB (by decide) jumpB_cur_inB jumpB_mid_inB
      (by decide) (by decide) (Or.inr ⟨by decide, by decide⟩)⟩

/-! ## Claim C5 -/

theorem rightOf_ne {q u : Slot} (h : rightOf q = some u) : u ≠ q := by
  unfold rightOf at h
  by_cases h0 : q.1.val = 8
  · rw [dif_pos h0] at h; exact Option.noConfusion h
  · rw [dif_neg h0] at h
    cases Option.some_inj.mp h
    intro hc
    have := congrArg (fun s => s.1.val) hc
    simp at this

theorem downOf_ne {q u : Slot} (h : downOf q = some u) : u ≠ q := by
  unfold downOf at h
  by_cases h0 : q.2.val = 8
  · rw [dif_pos h0] at h; exact Option.noConfusion h
  · rw [dif_neg h0] at h
    cases Option.some_inj.mp h
    intro hc
    have := congrArg (fun s => s.2.val) hc
    simp at this

theorem mkSlot_congr {p p2 : Int × Int} (h : inB p) (h2 : inB p2) (he : p = p2) :
    mkSlot p h = mkSlot p2 h2 := by
  subst he
  rfl

/-- In a state satisfying the pawn invariant, a cell other than the moving
player's own cell is occupied iff it holds the opponent's marker. -/
theorem opp_pawn_iff {b : Board} (hpw : PawnsWF b) (player : Int)
    (hp : player = 1 ∨ player = 2) (hcur : inB (storedPos b player)) {cq : Slot}
    (hne : cq ≠ mkSlot (storedPos b player) hcur) :
    ((b.grid cq).has_pawn ≠ 0 ↔
      (b.grid cq).has_pawn = (if player = 1 then (2 : Int) else 1)) := by
  obtain ⟨hrange, hiff1, hiff2⟩ := hpw.2 cq
  rcases hp with rfl | rfl
  · rw [if_pos rfl]
    constructor
    · intro h0
      rcases hrange with h | h | h
      · exact absurd h h0
      · exfalso
        have hc := hiff1.mp h
        have hcur2 : inB b.player_1 := by rw [← storedPos_one]; exact hcur
        have := coordIs_eq_mkSlot hcur2 hc
        exact hne (this.trans (mkSlot_congr hcur2 hcur (storedPos_one b).symm))
      · exact h
    · intro h2
      rw [h2]
      exact (by decide : (2 : Int) ≠ 0)
  · rw [if_neg (by decide)]
    constructor
    · intro h0
      rcases hrange with h | h | h
      · exact absurd h h0
      · exact h
      · exfalso
        have hc := hiff2.mp h
        have hcur2 : inB b.player_2 := by rw [← storedPos_two]; exact hcur
        have := coordIs_eq_mkSlot hcur2 hc
        exact hne (this.trans (mkSlot_congr hcur2 hcur (storedPos_two b).symm))
    · intro h1
      rw [h1]
      exact (by decide : (1 : Int) ≠ 0)

theorem bool_move_iff (b : Board) (c : Bool) (x : Board) :
    (Option.map Prod.fst (if c = true then some (true, x) else some (false, b))) =
      some true ↔ c = true := by
  cases c
  · rw [if_neg (by simp)]
    simp
  · rw [if_pos rfl]
    simp

theorem natAbs_one_cases {x : Int} (h : x.natAbs = 1) : x = 1 ∨ x = -1 := by omega

/-- C5: for an in-bounds, unoccupied diagonal target (both axes of the
displacement have magnitude 1), `move_pawn` succeeds iff either (a) the cell
linked along the column displacement holds the opponent pawn, the link
continuing from it in the column direction is closed, and its link in the
row direction is open; or (b) no such occupied column neighbour exists and
the cell linked along the row displacement holds the opponent pawn, with the
link continuing in the row direction closed and its link in the column
direction open. -/
theorem diagonal_move_characterization (b : Board) (hwf : LinksWF b) (hpw : PawnsWF b)
    (player : Int) (hp : player = 1 ∨ player = 2) (new_pos : Int × Int) (hin : inB new_pos)
    (hemp : (b.grid (mkSlot new_pos hin)).has_pawn = 0)
    (hd : (new_pos.1 - (storedPos b player).1).natAbs = 1 ∧
          (new_pos.2 - (storedPos b player).2).natAbs = 1) :
    ((b.move_pawn player new_pos).map Prod.fst = some true ↔
      ((∃ cq, (b.grid (mkSlot (storedPos b player)
              (storedPos_inB hpw.1 player))).get_direction
            (new_pos.1 - (storedPos b player).1, 0) = some cq ∧
          (b.grid cq).has_pawn = (if player = 1 then (2 : Int) else 1) ∧
          (b.grid cq).get_direction (new_pos.1 - (storedPos b player).1, 0) = none ∧
          ((b.grid cq).get_direction (0, new_pos.2 - (storedPos b player).2)).isSome) ∨
       ((∀ cq, (b.grid (mkSlot (storedPos b player)
              (storedPos_inB hpw.1 player))).get_direction
            (new_pos.1 - (storedPos b player).1, 0) = some cq →
            (b.grid cq).has_pawn = 0) ∧
        ∃ rq, (b.grid (mkSlot (storedPos b player)
              (storedPos_inB hpw.1 player))).get_direction
            (0, new_pos.2 - (storedPos b player).2) = some rq ∧
          (b.grid rq).has_pawn = (if player = 1 then (2 : Int) else 1) ∧
          (b.grid rq).get_direction (0, new_pos.2 - (storedPos b player).2) = none ∧
          ((b.grid rq).get_direction
            (new_pos.1 - (storedPos b player).1, 0)).isSome))) := by
  have hcur : inB (storedPos b player) := storedPos_inB hpw.1 player
  rw [move_pawn_open b player hin hemp (b.tileRef_pos hcur)]
  have hreg : b.can_move_regularly (b.grid (mkSlot (storedPos b player) hcur))
      (new_pos.2 - (storedPos b player).2) (new_pos.1 - (storedPos b player).1) = false := by
    unfold Board.can_move_regularly
    rw [if_neg]
    omega
  have hjump : b.can_jump_pawn (b.grid (mkSlot (storedPos b player) hcur))
      (new_pos.2 - (storedPos b player).2) (new_pos.1 - (storedPos b player).1) = false := by
    unfold Board.can_jump_pawn
    rw [if_neg]
    omega
  have hall : b.move_allowed player new_pos (b.grid (mkSlot (storedPos b player) hcur)) =
      b.can_move_diagonally (b.grid (mkSlot (storedPos b player) hcur))
        (new_pos.2 - (storedPos b player).2) (new_pos.1 - (storedPos b player).1) := by
    unfold Board.move_allowed moveDelta
    rw [hreg, hjump, Bool.false_or, Bool.false_or]
  rw [bool_move_iff, hall]
  have hrowiff : (b.diag_row_branch
      ((b.grid (mkSlot (storedPos b player) hcur)).get_direction
        (0, new_pos.2 - (storedPos b player).2))
      (new_pos.2 - (storedPos b player).2) (new_pos.1 - (storedPos b player).1) = true ↔
      ∃ rq, (b.grid (mkSlot (storedPos b player) hcur)).get_direction
          (0, new_pos.2 - (storedPos b player).2) = some rq ∧
        (b.grid rq).has_pawn = (if player = 1 then (2 : Int) else 1) ∧
        (b.grid rq).get_direction (0, new_pos.2 - (storedPos b player).2) = none ∧
        ((b.grid rq).get_direction (new_pos.1 - (storedPos b player).1, 0)).isSome) := by
    cases hcr : (b.grid (mkSlot (storedPos b player) hcur)).get_direction
        (0, new_pos.2 - (storedPos b player).2) with
    | none => simp [Board.diag_row_branch]
    | some rq =>
      have hner : rq ≠ mkSlot (storedPos b player) hcur := by
        have hcr2 := hcr
        rcases natAbs_one_cases hd.2 with hsign | hsign
        · rw [hsign] at hcr2
          have hcr3 : (b.grid (mkSlot (storedPos b player) hcur)).south = some rq := hcr2
          exact downOf_ne (south_link_facts hwf hcr3).1
        · rw [hsign] at hcr2
          have hcr3 : (b.grid (mkSlot (storedPos b player) hcur)).north = some rq := hcr2
          exact upOf_ne (north_link_facts hwf hcr3).1
      have hpiff := opp_pawn_iff hpw player hp hcur hner
      have hbr : b.diag_row_branch (some rq) (new_pos.2 - (storedPos b player).2)
          (new_pos.1 - (storedPos b player).1) =
          (if (b.grid rq).has_pawn ≠ 0 then
            decide ((b.grid rq).get_direction
              (0, new_pos.2 - (storedPos b player).2) = none) &&
              ((b.grid rq).get_direction
                (new_pos.1 - (storedPos b player).1, 0)).isSome
           else false) := rfl
      rw [hbr]
      by_cases hp0 : (b.grid rq).has_pawn = 0
      · rw [if_neg (not_not_intro hp0)]
        constructor
        · intro hfalse
          exact absurd hfalse (by decide)
        · intro ⟨rq2, heq, hopp, _, _⟩
          obtain rfl : rq2 = rq := (Option.some_inj.mp heq).symm
          rw [hp0] at hopp
          rcases hp with rfl | rfl
          · rw [if_pos rfl] at hopp
            exact absurd hopp (by decide)
          · rw [if_neg (by decide)] at hopp
            exact absurd hopp (by decide)
      · rw [if_pos hp0]
        constructor
        · intro hb
          rw [Bool.and_eq_true] at hb
          exact ⟨rq, rfl, hpiff.mp hp0, of_decide_eq_true hb.1, hb.2⟩
        · intro ⟨rq2, heq, _, hnone, hsome⟩
          obtain rfl : rq2 = rq := (Option.some_inj.mp heq).symm
          rw [Bool.and_eq_true]
          exact ⟨decide_eq_true hnone, hsome⟩
  cases hcc : (b.grid (mkSlot (storedPos b player) hcur)).get_direction
      (new_pos.1 - (storedPos b player).1, 0) with
  | none =>
    have hdv : b.can_move_diagonally (b.grid (mkSlot (storedPos b player) hcur))
        (new_pos.2 - (storedPos b player).2) (new_pos.1 - (storedPos b player).1) =
        b.diag_row_branch
          ((b.grid (mkSlot (storedPos b player) hcur)).get_direction
            (0, new_pos.2 - (storedPos b player).2))
          (new_pos.2 - (storedPos b player).2) (new_pos.1 - (storedPos b player).1) := by
      unfold Board.can_move_diagonally
      rw [if_pos ⟨hd.2, hd.1⟩, hcc]
    rw [hdv, hrowiff]
    constructor
    · intro hex
      exact Or.inr ⟨fun cq hc => Option.noConfusion hc, hex⟩
    · intro hor
      rcases hor with ⟨cq, hc, _⟩ | ⟨_, hex⟩
      · exact Option.noConfusion hc
      · exact hex
  | some cq =>
    have hnec : cq ≠ mkSlot (storedPos b player) hcur := by
      have hcc2 := hcc
      rcases natAbs_one_cases hd.1 with hsign | hsign
      · rw [hsign] at hcc2
        have hcc3 : (b.grid (mkSlot (storedPos b player) hcur)).east = some cq := hcc2
        exact rightOf_ne (east_link_facts hwf hcc3).1
      · rw [hsign] at hcc2
        have hcc3 : (b.grid (mkSlot (storedPos b player) hcur)).west = some cq := hcc2
        exact leftOf_ne (west_link_facts hwf hcc3).1
    have hciff := opp_pawn_iff hpw player hp hcur hnec
    have hdv0 : b.can_move_diagonally (b.grid (mkSlot (storedPos b player) hcur))
        (new_pos.2 - (storedPos b player).2) (new_pos.1 - (storedPos b player).1) =
        (if (b.grid cq).has_pawn ≠ 0 then
          decide ((b.grid cq).get_direction
            (new_pos.1 - (storedPos b player).1, 0) = none) &&
            ((b.grid cq).get_direction
              (0, new_pos.2 - (storedPos b player).2)).isSome
         else b.diag_row_branch
          ((b.grid (mkSlot (storedPos b player) hcur)).get_direction
            (0, new_pos.2 - (storedPos b player).2))
          (new_pos.2 - (storedPos b player).2) (new_pos.1 - (storedPos b player).1)) := by
      unfold Board.can_move_diagonally
      rw [if_pos ⟨hd.2, hd.1⟩, hcc]
    by_cases hcp : (b.grid cq).has_pawn = 0
    · rw [hdv0, if_neg (not_not_intro hcp), hrowiff]
      constructor
      · intro hex
        refine Or.inr ⟨?_, hex⟩
        intro cq2 hc2
        obtain rfl : cq2 = cq := (Option.some_inj.mp hc2).symm
        exact hcp
      · intro hor
        rcases hor with ⟨cq2, hc2, hopp, _⟩ | ⟨_, hex⟩
        · obtain rfl : cq2 = cq := (Option.some_inj.mp hc2).symm
          exfalso
          rw [hcp] at hopp
          rcases hp with rfl | rfl
          · rw [if_pos rfl] at hopp
            exact absurd hopp (by decide)
          · rw [if_neg (by decide)] at hopp
            exact absurd hopp (by decide)
        · exact hex
    · rw [hdv0, if_pos hcp]
      constructor
      · intro hb
        rw [Bool.and_eq_true] at hb
        exact Or.inl ⟨cq, rfl, hciff.mp hcp, of_decide_eq_true hb.1, hb.2⟩
      · intro hor
        rcases hor with ⟨cq2, hc2, _, hnone, hsome⟩ | ⟨hall0, _⟩
        · obtain rfl : cq2 = cq := (Option.some_inj.mp hc2).symm
          rw [Bool.and_eq_true]
          exact ⟨decide_eq_true hnone, hsome⟩
        · exact absurd (hall0 cq rfl) hcp

theorem jb_pawnsWF : PawnsWF jumpBoard := by decide

theorem diagonal_move_characterization_witness :
    PawnsWF jumpBoard ∧
      ((jumpBoard.move_pawn 1 ((3 : Int), (5 : Int))).map Prod.fst = some true ↔
        ((∃ cq, (jumpBoard.grid (mkSlot (storedPos jumpBoard 1)
                (storedPos_inB jb_pawnsWF.1 1))).get_direction
              (((3 : Int), (5 : Int)).1 - (storedPos jumpBoard 1).1, 0) = some cq ∧
            (jumpBoard.grid cq).has_pawn = (if (1 : Int) = 1 then (2 : Int) else 1) ∧
            (jumpBoard.grid cq).get_direction
              (((3 : Int), (5 : Int)).1 - (storedPos jumpBoard 1).1, 0) = none ∧
            ((jumpBoard.grid cq).get_direction
              (0, ((3 : Int), (5 : Int)).2 - (storedPos jumpBoard 1).2)).isSome) ∨
         ((∀ cq, (jumpBoard.grid (mkSlot (storedPos jumpBoard 1)
                (storedPos_inB jb_pawnsWF.1 1))).get_direction
              (((3 : Int), (5 : Int)).1 - (storedPos jumpBoard 1).1, 0) = some cq →
              (jumpBoard.grid cq).has_pawn = 0) ∧
          ∃ rq, (jumpBoard.grid (mkSlot (storedPos jumpBoard 1)
                (storedPos_inB jb_pawnsWF.1 1))).get_direction
              (0, ((3 : Int), (5 : Int)).2 - (storedPos jumpBoard 1).2) = some rq ∧
            (jumpBoard.grid rq).has_pawn = (if (1 : Int) = 1 then (2 : Int) else 1) ∧
            (jumpBoard.grid rq).get_direction
              (0, ((3 : Int), (5 : Int)).2 - (storedPos jumpBoard 1).2) = none ∧
            ((jumpBoard.grid rq).get_direction
              (((3 : Int), (5 : Int)).1 - (storedPos jumpBoard 1).1, 0)).isSome))) :=
  ⟨jb_pawnsWF,
    diagonal_move_characterization jumpBoard (by decide) jb_pawnsWF 1 (Or.inl rfl)
      ((3 : Int), (5 : Int)) (by decide) (by decide) ⟨by decide, by decide⟩⟩

/-! ## Claim C8 -/

theorem coordIs_trans {q : Slot} {p p2 : Int × Int} (h : coordIs q p) (he : p = p2) :
    coordIs q p2 := by
  subst he
  exact h

theorem pawnsWF_commit {b : Board} (hpw : PawnsWF b) (player : Int)
    (hp : player = 1 ∨ player = 2) {new_pos : Int × Int} (hin : inB new_pos)
    (hocc : (b.grid (mkSlot new_pos hin)).has_pawn = 0) :
    PawnsWF (b.commitMove player new_pos) := by
  have hcur : inB (storedPos b player) := storedPos_inB hpw.1 player
  have hq := hpw.2
  have hown : (b.grid (mkSlot (storedPos b player) hcur)).has_pawn = player := by
    rcases hp with rfl | rfl
    · exact (hq _).2.1.mpr (coordIs_trans (coordIs_mkSlot hcur) (storedPos_one b))
    · exact (hq _).2.2.mpr (coordIs_trans (coordIs_mkSlot hcur) (storedPos_two b))
  have hne : mkSlot (storedPos b player) hcur ≠ mkSlot new_pos hin := by
    intro hc
    rw [hc, hocc] at hown
    rcases hp with rfl | rfl
    · exact absurd hown (by decide)
    · exact absurd hown (by decide)
  constructor
  · constructor
    · rw [(commitMove_players b player new_pos).1]
      rcases hp with rfl | rfl
      · rw [if_pos rfl]; exact hin
      · rw [if_neg (by decide)]; exact hpw.1.1
    · rw [(commitMove_players b player new_pos).2]
      rcases hp with rfl | rfl
      · rw [if_pos rfl]; exact hpw.1.2
      · rw [if_neg (by decide)]; exact hin
  · intro q
    rw [commitMove_grid b player hin hcur q, (commitMove_players b player new_pos).1,
      (commitMove_players b player new_pos).2]
    rcases hp with rfl | rfl
    · rw [if_pos (show (1 : Int) = 1 from rfl), if_pos (show (1 : Int) = 1 from rfl)]
      by_cases h1 : q = mkSlot new_pos hin
      · rw [if_pos h1]
        refine ⟨Or.inr (Or.inl rfl), ⟨fun _ => h1 ▸ coordIs_mkSlot hin, fun _ => rfl⟩, ?_⟩
        constructor
        · intro h2
          exact (by decide : ¬ ((1 : Int) = 2)).elim h2
        · intro hc
          exfalso
          have h2 := (hq q).2.2.mpr hc
          rw [h1, hocc] at h2
          exact absurd h2 (by decide)
      · rw [if_neg h1]
        by_cases h2 : q = mkSlot (storedPos b 1) hcur
        · rw [if_pos h2]
          refine ⟨Or.inl rfl, ?_, ?_⟩
          · constructor
            · intro h3
              exact (by decide : ¬ ((0 : Int) = 1)).elim h3
            · intro hc
              exact absurd (coordIs_eq_mkSlot hin hc) h1
          · constructor
            · intro h3
              exact (by decide : ¬ ((0 : Int) = 2)).elim h3
            · intro hc
              exfalso
              have h3 := (hq q).2.2.mpr hc
              rw [h2, hown] at h3
              exact absurd h3 (by decide)
        · rw [if_neg h2]
          refine ⟨(hq q).1, ?_, (hq q).2.2⟩
          constructor
          · intro h3
            exfalso
            have hc := (hq q).2.1.mp h3
            have h4 := coordIs_eq_mkSlot hpw.1.1 hc
            exact h2 (h4.trans (mkSlot_congr hpw.1.1 hcur (storedPos_one b).symm))
          · intro hc
            exact absurd (coordIs_eq_mkSlot hin hc) h1
    · rw [if_neg (show ¬ (2 : Int) = 1 by decide), if_neg (show ¬ (2 : Int) = 1 by decide)]
      by_cases h1 : q = mkSlot new_pos hin
      · rw [if_pos h1]
        refine ⟨Or.inr (Or.inr rfl), ?_, ⟨fun _ => h1 ▸ coordIs_mkSlot hin, fun _ => rfl⟩⟩
        constructor
        · intro h2
          exact (by decide : ¬ ((2 : Int) = 1)).elim h2
        · intro hc
          exfalso
          have h2 := (hq q).2.1.mpr hc
          rw [h1, hocc] at h2
          exact absurd h2 (by decide)
      · rw [if_neg h1]
        by_cases h2 : q = mkSlot (storedPos b 2) hcur
        · rw [if_pos h2]
          refine ⟨Or.inl rfl, ?_, ?_⟩
          · constructor
            · intro h3
              exact (by decide : ¬ ((0 : Int) = 1)).elim h3
            · intro hc
              exfalso
              have h3 := (hq q).2.1.mpr hc
              rw [h2, hown] at h3
              exact absurd h3 (by decide)
          · constructor
            · intro h3
              exact (by decide : ¬ ((0 : Int) = 2)).elim h3
            · intro hc
              exact absurd (coordIs_eq_mkSlot hin hc) h1
        · rw [if_neg h2]
          refine ⟨(hq q).1, (hq q).2.1, ?_⟩
          constructor
          · intro h3
            exfalso
            have hc := (hq q).2.2.mp h3
            have h4 := coordIs_eq_mkSlot hpw.1.2 hc
            exact h2 (h4.trans (mkSlot_congr hpw.1.2 hcur (storedPos_two b).symm))
          · intro hc
            exact absurd (coordIs_eq_mkSlot hin hc) h1

/-- C8: pawn-state consistency is an invariant: it holds in the initial
board, and after every successful `move_pawn` by player 1 or 2 from a
consistent state, exactly the cell at the stored player-1 coordinate holds
marker 1, exactly the cell at the stored player-2 coordinate holds marker
2, and no cell holds any other marker (in particular none holds both). -/
theorem pawn_consistency_invariant :
    PawnsWF initialBoard ∧
      ∀ (b : Board) (player : Int) (new_pos : Int × Int) (b2 : Board),
        PawnsWF b → (player = 1 ∨ player = 2) →
        b.move_pawn player new_pos = some (true, b2) → PawnsWF b2 := by
  refine ⟨by decide, ?_⟩
  intro b player new_pos b2 hpw hp hmv
  by_cases hin : inB new_pos
  · by_cases hocc : (b.grid (mkSlot new_pos hin)).has_pawn = 0
    · have hcur := storedPos_inB hpw.1 player
      rw [move_pawn_open b player hin hocc (b.tileRef_pos hcur)] at hmv
      by_cases hall : b.move_allowed player new_pos (b.grid (mkSlot _ hcur)) = true
      · rw [if_pos hall] at hmv
        have hb := pair_eq_snd (Option.some_inj.mp hmv)
        exact hb ▸ pawnsWF_commit hpw player hp hin hocc
      · rw [if_neg hall] at hmv
        exact Bool.noConfusion (pair_eq_fst (Option.some_inj.mp hmv))
    · rw [move_pawn_occupied b player hin hocc] at hmv
      exact Bool.noConfusion (pair_eq_fst (Option.some_inj.mp hmv))
  · rw [move_pawn_oob b player hin] at hmv
    exact Bool.noConfusion (pair_eq_fst (Option.some_inj.mp hmv))

/-- The board after player 1's opening move from (4,0) to (4,1). -/
def movedB : Board := initialBoard.commitMove 1 ((4 : Int), (1 : Int))

theorem pawn_consistency_invariant_witness :
    PawnsWF initialBoard ∧ PawnsWF movedB :=
  ⟨pawn_consistency_invariant.1,
    pawn_consistency_invariant.2 initialBoard 1 ((4 : Int), (1 : Int)) movedB (by decide)
      (Or.inl rfl)
      (by
        rw [@move_pawn_open initialBoard 1 ((4 : Int), (1 : Int)) (by decide) (by decide) _
          (initialBoard.tileRef_pos (by decide)), if_pos (by decide)]
        rfl)⟩
